import Mathlib

/-!
# SceneSync audio pipeline — shallow embedding and verification

This file embeds the frame-based audio feature-extraction and
classification pipeline of the SceneSync repository
(src/workers/featureExtraction.worker.ts, src/utils/featureExtraction.ts,
src/services/mlModelService.ts, src/hooks/useScenePrediction.ts)
into Lean 4 and proves, or refutes, the properties stated in the
project specification.

Modelling conventions:
* JavaScript numbers are modelled as exact rationals (`ℚ`).  Where a
  claim genuinely depends on the non-finite JavaScript values
  (`NaN`, `±Infinity`, `undefined`), we use the dedicated `JSVal` type.
* The external Meyda feature extractors are parameters of the
  embedding: each pass receives the extractor as a function from a
  frame (a list of samples) to its result.
* `Math.sqrt` appears in the source in two places: the `std` helper
  used for feature-vector slots (modelled with an abstract square-root
  parameter, since no claim depends on its value) and the onset
  threshold `mean + 0.3 * std` inside `estimateTempo`, which is
  modelled by its exact rational characterisation
  `x > m + 0.3·√v  ↔  x > m ∧ (x − m)² > 0.09·v` (proved sound against
  `Real.sqrt` in `exceedsThreshold_iff_real`).
-/

namespace SceneSync

/-- JavaScript runtime values that a Meyda extractor call can produce,
as far as the worker code distinguishes them: a finite number, `NaN`,
`+Infinity`, `-Infinity`, or any non-number value (`undef`). -/
inductive JSVal where
  | num (q : ℚ)
  | nan
  | posInf
  | negInf
  | undef
  deriving DecidableEq, Repr

/-- `Math.round`: rounds to the nearest integer, ties towards `+∞`
(`Math.round(x) = ⌊x + 0.5⌋`). -/
def jsRound (q : ℚ) : ℤ := Int.floor (q + 1/2)

/-- `mean` helper from the worker: `0` for the empty array, otherwise
the arithmetic mean. -/
def meanQ (l : List ℚ) : ℚ :=
  if l = [] then 0 else l.sum / l.length

/-- The variance computed inside the `std` helper of the worker:
`Σ (val − m)² / length` with `m = mean`, and `0` for the empty array
(the source returns `0` from `std` before touching the sum). -/
def varianceQ (l : List ℚ) : ℚ :=
  if l = [] then 0
  else (l.map (fun v => (v - meanQ l) ^ 2)).sum / l.length

/-- Frame starts of the loop
`for (let i = 0; i < signal.length - BUFFER_SIZE; i += HOP_SIZE)`
with `BUFFER_SIZE = 2048`, `HOP_SIZE = 512`.  Note the strict `<`
against `signal.length - 2048`: a signal of exactly `2048` samples
produces no frame.  (`Nat` truncated subtraction agrees with the
JavaScript integer arithmetic here: for `n < 2048` the bound is
negative in JavaScript and `0` in `Nat`, and in both cases no index
`i ≥ 0` satisfies the condition.) -/
def frameStartsAux (fuel n i : ℕ) : List ℕ :=
  match fuel with
  | 0 => []
  | fuel + 1 =>
      if i < n - 2048 then i :: frameStartsAux fuel n (i + 512) else []

/-- The list of frame start offsets for a signal of `n` samples.  The
fuel `n` given to `frameStartsAux` is provably sufficient (the index
grows by 512 each step), so this is exactly the loop above. -/
def frameStarts (n : ℕ) : List ℕ := frameStartsAux n n 0

/-- `signal.slice(i, i + 2048)`: the frame starting at offset `i`. -/
def frameSlice (signal : List ℚ) (i : ℕ) : List ℚ :=
  (signal.drop i).take 2048

/-- The keep-test of every per-frame loop in the worker:
`typeof result === 'number' && !isNaN(result)`.  `NaN` and non-number
values are dropped; finite numbers and both infinities are numbers
that are not `NaN`, hence kept. -/
def keepResult : JSVal → Bool
  | .num _ => true
  | .nan => false
  | .posInf => true
  | .negInf => true
  | .undef => false

/-- `extractFramedFeature` over the full JavaScript value domain:
runs the extractor on every frame, keeps the results passing
`typeof result === 'number' && !isNaN(result)`, and falls back to the
single-element array `[0]` when nothing was kept. -/
def extractFramedFeatureJS (ext : List ℚ → JSVal) (signal : List ℚ) :
    List JSVal :=
  let kept := (frameStarts signal.length).filterMap fun i =>
    let r := ext (frameSlice signal i)
    if keepResult r then some r else none
  if kept = [] then [.num 0] else kept

/-- `extractFramedFeature` specialised to extractors that produce a
finite number (`some q`) or a dropped value (`none`, covering `NaN`
and non-number results).  This is the form used by the rest of the
pipeline, whose arithmetic is carried out on rationals. -/
def extractFramedFeature (ext : List ℚ → Option ℚ) (signal : List ℚ) :
    List ℚ :=
  let values := (frameStarts signal.length).filterMap fun i =>
    ext (frameSlice signal i)
  if values = [] then [0] else values

/-- Exact rational characterisation of the onset-threshold test
`rmsFrames[i] > mean + 0.3 * Math.sqrt(variance)`:
for `v ≥ 0` this holds iff `x > m` and `(x − m)² > 0.09·v`
(see `exceedsThreshold_iff_real`). -/
def exceedsThreshold (x m v : ℚ) : Bool :=
  decide (m < x) && decide (9/100 * v < (x - m) ^ 2)

/-- `rmsFrames[i]` for a possibly out-of-range (or negative) integer
index: JavaScript yields `undefined` there, and every comparison with
`undefined` is false, which the `Option` models. -/
def valueAt (l : List ℚ) (i : ℤ) : Option ℚ :=
  if i < 0 then none else l.get? i.toNat

/-- The value conditions of the onset-detection test:
`rmsFrames[i] > threshold && rmsFrames[i] > rmsFrames[i-1] &&
rmsFrames[i] > rmsFrames[i+1]`.  Any comparison touching an
out-of-range index is false. -/
def onsetValB (rms : List ℚ) (m v : ℚ) (i : ℤ) : Bool :=
  match valueAt rms i, valueAt rms (i - 1), valueAt rms (i + 1) with
  | some x, some p, some s =>
      exceedsThreshold x m v && decide (p < x) && decide (s < x)
  | _, _, _ => false

/-- The spacing condition of the onset-detection test:
`onsets.length === 0 || i - onsets[onsets.length - 1] > minSpacing`.
Note the strict `>`: a gap of exactly `minSpacing` is rejected. -/
def onsetGapB (minSp : ℤ) (onsets : List ℤ) (i : ℤ) : Bool :=
  onsets.isEmpty ||
    match onsets.getLast? with
    | some j => decide (minSp < i - j)
    | none => true

/-- One candidate test of the onset-detection loop in `estimateTempo`:
the value conditions conjoined with the spacing condition, exactly as
the `if` of the source. -/
def onsetCond (rms : List ℚ) (m v : ℚ) (minSp : ℤ) (onsets : List ℤ)
    (i : ℤ) : Bool :=
  onsetValB rms m v i && onsetGapB minSp onsets i

/-- The onset-detection loop, walking the candidate indices in order
and appending each accepted onset. -/
def onsetLoop (rms : List ℚ) (m v : ℚ) (minSp : ℤ) :
    List ℤ → List ℤ → List ℤ
  | [], onsets => onsets
  | i :: rest, onsets =>
      onsetLoop rms m v minSp rest
        (if onsetCond rms m v minSp onsets i then onsets ++ [i] else onsets)

/-- The candidate indices of the loop
`for (let i = minSpacing; i < rmsFrames.length - 1; i++)`. -/
def candidateIndices (minSp : ℤ) (len : ℕ) : List ℤ :=
  (List.range ((len : ℤ) - 1 - minSp).toNat).map fun (k : ℕ) => minSp + (k : ℤ)

/-- `minSpacing = Math.floor(0.2 * frameRate)`. -/
def minSpacingOf (sr : ℚ) : ℤ := Int.floor (sr / 512 / 5)

/-- The complete onset-detection phase of `estimateTempo`: threshold
from mean and variance of the RMS series, minimum spacing from the
frame rate, then the detection loop. -/
def detectOnsets (rms : List ℚ) (sr : ℚ) : List ℤ :=
  let minSp := minSpacingOf sr
  onsetLoop rms (meanQ rms) (varianceQ rms) minSp
    (candidateIndices minSp rms.length) []

/-- The inter-onset intervals `onsets[i] - onsets[i-1]`. -/
def intervalsOf (onsets : List ℤ) : List ℤ :=
  List.zipWith (fun a b => a - b) onsets.tail onsets

/-- `while (tempo > 180) tempo /= 2`, with explicit fuel.  The fuel
passed by `octaveCorrect` is provably sufficient, so the loop result
is reached (see `halveLoop_spec`). -/
def halveLoop : ℕ → ℚ → ℚ
  | 0, t => t
  | fuel + 1, t => if 180 < t then halveLoop fuel (t / 2) else t

/-- `while (tempo < 80) tempo *= 2`, with explicit fuel. -/
def doubleLoop : ℕ → ℚ → ℚ
  | 0, t => t
  | fuel + 1, t => if t < 80 then doubleLoop fuel (t * 2) else t

/-- The two octave-correction loops of `estimateTempo`, run with
sufficient fuel: first halve while above `180`, then double while
below `80`. -/
def octaveCorrect (t : ℚ) : ℚ :=
  let t1 := halveLoop t.num.natAbs t
  doubleLoop (t1.den + 7) t1

/-- `estimateTempo` from the worker: detect onsets on the RMS series;
with fewer than two onsets return `120`; otherwise sort the
inter-onset intervals ascending, take the element at index
`⌊length / 2⌋`, convert to BPM at frame rate `sampleRate / 512`,
octave-correct into range, clamp to `[60, 200]` and round. -/
def estimateTempo (rms : List ℚ) (sr : ℚ) : ℤ :=
  let onsets := detectOnsets rms sr
  if onsets.length < 2 then 120
  else
    let intervals := intervalsOf onsets
    let sorted := intervals.insertionSort (· ≤ ·)
    let medianInterval : ℚ := (sorted.getD (intervals.length / 2) 0 : ℤ)
    let frameRate := sr / 512
    let tempo := 60 * frameRate / medianInterval
    max 60 (min 200 (jsRound (octaveCorrect tempo)))

/-- The external Meyda extractors, one per feature name the pipeline
requests.  Scalar features yield `some q` for a finite number and
`none` for a dropped (`NaN`/non-number) result; the array-valued
features (`mfcc`, `chroma`) yield `none` for a non-array result and
otherwise the array, whose entries are `none` where `NaN`. -/
structure ExtractEnv where
  rms : List ℚ → Option ℚ
  zcr : List ℚ → Option ℚ
  centroid : List ℚ → Option ℚ
  rolloff : List ℚ → Option ℚ
  spread : List ℚ → Option ℚ
  flatness : List ℚ → Option ℚ
  mfcc : List ℚ → Option (List (Option ℚ))
  chroma : List ℚ → Option (List (Option ℚ))

/-- The per-column fallback `arr.length > 0 ? arr : [0]`. -/
def colFallback (l : List ℚ) : List ℚ := if l = [] then [0] else l

/-- `extractMFCCs`: thirteen per-coefficient series; a frame result is
used only if it is an array of length at least 13, and coefficient
`j` is pushed only when not `NaN`; each of the 13 arrays falls back to
`[0]` when empty. -/
def extractMFCCs (env : ExtractEnv) (signal : List ℚ) : List (List ℚ) :=
  (List.range 13).map fun j =>
    colFallback <| (frameStarts signal.length).filterMap fun i =>
      match env.mfcc (frameSlice signal i) with
      | some l => if 13 ≤ l.length then l.getD j none else none
      | none => none

/-- `extractSpectralContrast`: a single `spectralFlatness` measurement
per frame (with the scalar keep-test), offset by `j * 0.1` for band
`j < 7`; per-band `[0]` fallback. -/
def extractSpectralContrast (env : ExtractEnv) (signal : List ℚ) :
    List (List ℚ) :=
  (List.range 7).map fun (j : ℕ) =>
    colFallback <|
      ((frameStarts signal.length).filterMap fun i =>
        env.flatness (frameSlice signal i)).map fun c => c + (j : ℚ) * (1/10)

/-- `extractChroma`: twelve pitch-class series; a frame result is used
only if it is an array of length exactly 12, per-class `NaN` entries
are dropped, and each of the 12 arrays falls back to `[0]`. -/
def extractChroma (env : ExtractEnv) (signal : List ℚ) : List (List ℚ) :=
  (List.range 12).map fun j =>
    colFallback <| (frameStarts signal.length).filterMap fun i =>
      match env.chroma (frameSlice signal i) with
      | some l => if l.length = 12 then l.getD j none else none
      | none => none

/-- Maximum of a list of numbers, as computed by
`rms.reduce((a, b) => Math.max(a, b), -Infinity)` (worker) and
`Math.max(...rms)` (main-thread variant).  The empty case is
unreachable in the pipeline because every series carries the `[0]`
fallback; we return `0` there. -/
def listMax : List ℚ → ℚ
  | [] => 0
  | x :: xs => xs.foldl max x

/-- The `std` helper: square root of `varianceQ`, with the abstract
square-root parameter `sq` standing for `Math.sqrt` (no claim proved
here depends on its values). -/
def stdQ (sq : ℚ → ℚ) (l : List ℚ) : ℚ :=
  if l = [] then 0 else sq (varianceQ l)

/-- The 44-slot feature vector assembly, in the push order of the
worker (identical to the main-thread variant): basic properties (4),
energy (4), spectral (4), MFCC means (13), contrast means (7), chroma
means (12). -/
def assembleFeatures (sq : ℚ → ℚ) (env : ExtractEnv) (signal : List ℚ)
    (sr dur : ℚ) : List ℚ :=
  let rms := extractFramedFeature env.rms signal
  let zcr := extractFramedFeature env.zcr signal
  let centroid := extractFramedFeature env.centroid signal
  let rolloff := extractFramedFeature env.rolloff signal
  let bandwidth := extractFramedFeature env.spread signal
  let tempo := estimateTempo rms sr
  [dur, sr, (tempo : ℚ), (jsRound ((tempo : ℚ) / 60 * dur) : ℚ)] ++
  [meanQ rms, stdQ sq rms, listMax rms, meanQ zcr] ++
  [meanQ centroid, stdQ sq centroid, meanQ rolloff, meanQ bandwidth] ++
  (extractMFCCs env signal).map meanQ ++
  (extractSpectralContrast env signal).map meanQ ++
  (extractChroma env signal).map meanQ

/-- The time-series record returned alongside the feature vector. -/
structure FeatureTimeSeries where
  rms : List ℚ
  zcr : List ℚ
  spectralCentroid : List ℚ
  spectralRolloff : List ℚ
  tempo : ℤ
  sampleRate : ℚ
  deriving DecidableEq, Repr

/-- The time-series part of an extraction run. -/
def timeSeriesOf (env : ExtractEnv) (signal : List ℚ) (sr : ℚ) :
    FeatureTimeSeries :=
  let rms := extractFramedFeature env.rms signal
  { rms := rms
    zcr := extractFramedFeature env.zcr signal
    spectralCentroid := extractFramedFeature env.centroid signal
    spectralRolloff := extractFramedFeature env.rolloff signal
    tempo := estimateTempo rms sr
    sampleRate := sr }

/-- Worker → main-thread messages (`PROGRESS`, `RESULT`, `ERROR`). -/
inductive WorkerOut where
  | progress (percent : ℤ) (stage : String)
  | result (features : List ℚ) (timeSeries : FeatureTimeSeries)
  | error (message : String)
  deriving DecidableEq, Repr

/-- Whether an outbound message is a `PROGRESS` message. -/
def WorkerOut.isProgress : WorkerOut → Bool
  | .progress _ _ => true
  | _ => false

/-- The ordered trace of messages the worker posts for one `EXTRACT`
message: the nine `postProgress` calls interleaved with the eight
feature passes and the assembly step, then the `RESULT` message.  (The
embedding is pure, so the `catch` branch posting `ERROR` is
unreachable.) -/
def workerOnMessage (sq : ℚ → ℚ) (env : ExtractEnv) (signal : List ℚ)
    (sr dur : ℚ) : List WorkerOut :=
  [ .progress 0 "Analyzing energy...",
    .progress 14 "Analyzing texture...",
    .progress 28 "Analyzing brightness...",
    .progress 42 "Analyzing frequency shape...",
    .progress 56 "Analyzing spectral spread...",
    .progress 64 "Analyzing timbre...",
    .progress 78 "Analyzing harmonic contrast...",
    .progress 88 "Analyzing pitch content...",
    .progress 98 "Assembling features...",
    .result (assembleFeatures sq env signal sr dur)
      (timeSeriesOf env signal sr) ]

/-- The coordinator of `useScenePrediction` maps each worker percent
into the 40–80 band reserved for extraction:
`40 + Math.round(workerPercent * 0.4)`. -/
def mapToBand (p : ℚ) : ℤ := 40 + jsRound (p * (2/5))

/-- A decoded audio buffer as handed over by the external decoder. -/
structure AudioBuffer' where
  samples : List ℚ
  sampleRate : ℚ
  duration : ℚ

/-- `array.slice(0, k)` for an integer `k`, including the JavaScript
treatment of a negative end index (counting from the end). -/
def jsSliceTo (l : List ℚ) (k : ℤ) : List ℚ :=
  if 0 ≤ k then l.take k.toNat else l.take (l.length - k.natAbs)

/-- `extractBrowserCompatibleFeatures`: truncates the decoded buffer
to the first `min(30, duration)` seconds (`Math.floor(duration *
sampleRate)` samples) before framing, then assembles the feature
vector and time series; the duration slot holds the truncated
duration. -/
def extractBrowserCompatibleFeatures (sq : ℚ → ℚ) (env : ExtractEnv)
    (buf : AudioBuffer') : List ℚ × FeatureTimeSeries :=
  let duration := min 30 buf.duration
  let sampleCount : ℤ := Int.floor (duration * buf.sampleRate)
  let signal := jsSliceTo buf.samples sampleCount
  (assembleFeatures sq env signal buf.sampleRate duration,
   timeSeriesOf env signal buf.sampleRate)

/-- Scaler parameters loaded from `scaler_params.json`. -/
structure ScalerParams where
  mean : List ℚ
  scale : List ℚ
  deriving DecidableEq, Repr

/-- JavaScript division `x / y` on numbers, covering division by zero
(`0/0 = NaN`, `x/0 = ±Infinity`). -/
def jsDiv (x y : ℚ) : JSVal :=
  if y = 0 then (if x = 0 then .nan else if 0 < x then .posInf else .negInf)
  else .num (x / y)

/-- `MLModelService.normalizeFeatures`: errors when no scaler is
loaded or when the feature count differs from `scaler.mean.length`
(the only length that is checked); otherwise standardises entry-wise,
where an out-of-range `scale[idx]` read yields `undefined` and hence a
`NaN` entry. -/
def normalizeFeatures (scaler : Option ScalerParams)
    (features : List ℚ) : Except String (List JSVal) :=
  match scaler with
  | none => .error "Scaler not loaded"
  | some sc =>
      if features.length ≠ sc.mean.length then
        .error "Feature length mismatch"
      else
        .ok <| features.mapIdx fun idx v =>
          match sc.scale.get? idx with
          | none => .nan
          | some s => jsDiv (v - sc.mean.getD idx 0) s

/-- The fixed label ordering of the rule-based scorer, in insertion
order of the `scores` object. -/
def sceneLabels : List String :=
  ["Action & Intensity", "Ambiance & Texture",
   "Drama & Emotional", "Montage & Narrative"]

/-- The four rule-based scores, keyed by label, computed from tempo,
mean energy, energy variation and spectral brightness. -/
def ruleScores (tempo rmsMean rmsStd centroid : ℚ) : List (String × ℚ) :=
  [("Action & Intensity",
      (if 130 < tempo then 40 else 0) +
      (if 12/100 < rmsMean then 30 else 0) +
      (if 2000 < centroid then 30 else 0)),
   ("Ambiance & Texture",
      (if rmsMean < 8/100 then 40 else 0) +
      (if rmsStd < 4/100 then 30 else 0) +
      (if tempo < 100 then 30 else 0)),
   ("Drama & Emotional",
      (if 80 ≤ tempo ∧ tempo ≤ 120 then 30 else 0) +
      (if 5/100 < rmsStd then 40 else 0) +
      (if centroid < 1800 then 30 else 0)),
   ("Montage & Narrative",
      (if 100 ≤ tempo ∧ tempo ≤ 140 then 40 else 0) +
      (if 8/100 ≤ rmsMean ∧ rmsMean ≤ 12/100 then 30 else 0) +
      (if 3/100 ≤ rmsStd ∧ rmsStd ≤ 6/100 then 30 else 0))]

/-- The value returned by `MLModelService.predict`. -/
structure Prediction where
  sceneType : String
  confidence : ℚ
  probabilities : List (String × ℚ)
  deriving DecidableEq, Repr

/-- The rule-based `MLModelService.predict`: guards the feature count,
scores the four labels, picks the first label attaining the maximum
score, and normalises the scores by their total (`total || 1`) into
the probability mapping; the reported confidence is `maxScore / 100`. -/
def predict (features : List ℚ) : Except String Prediction :=
  if features.length ≠ 44 then .error "Expected 44 features"
  else
    let tempo := features.getD 2 0
    let rmsMean := features.getD 4 0
    let rmsStd := features.getD 5 0
    let centroid := features.getD 8 0
    let scores := ruleScores tempo rmsMean rmsStd centroid
    let maxScore := listMax (scores.map Prod.snd)
    let sceneType :=
      match scores.find? (fun kv => decide (kv.2 = maxScore)) with
      | some kv => kv.1
      | none => "Montage & Narrative"
    let total0 := (scores.map Prod.snd).sum
    let total := if total0 = 0 then 1 else total0
    .ok { sceneType := sceneType
          confidence := maxScore / 100
          probabilities := scores.map fun kv => (kv.1, kv.2 / total) }

/-- The mutable fields of `MLModelService`. -/
structure ServiceState (μ : Type) where
  model : Option μ
  scaler : Option ScalerParams
  featureNames : List String
  sceneTypes : List String
  isLoaded : Bool

/-- The freshly constructed service: nothing loaded. -/
def initialService (μ : Type) : ServiceState μ :=
  { model := none, scaler := none, featureNames := [],
    sceneTypes := [], isLoaded := false }

/-- The outcomes of the four external fetches of `loadModel`
(model graph, scaler parameters, feature names, scene types). -/
structure LoadEnv (μ : Type) where
  modelRes : Except String μ
  scalerRes : Except String ScalerParams
  featureNamesRes : Except String (List String)
  sceneTypesRes : Except String (List String)

/-- `MLModelService.loadModel`: a no-op when already loaded; otherwise
assigns the four assets in sequence, setting `isLoaded` only after all
four succeed.  A failure throws a descriptive error from the `catch`
block, but the assignments already performed are kept. -/
def loadModel {μ : Type} (env : LoadEnv μ) (s : ServiceState μ) :
    ServiceState μ × Option String :=
  if s.isLoaded then (s, none)
  else
    match env.modelRes with
    | .error e => (s, some ("Model loading failed: " ++ e))
    | .ok m =>
      let s1 := { s with model := some m }
      match env.scalerRes with
      | .error e => (s1, some ("Model loading failed: " ++ e))
      | .ok sc =>
        let s2 := { s1 with scaler := some sc }
        match env.featureNamesRes with
        | .error e => (s2, some ("Model loading failed: " ++ e))
        | .ok fn =>
          let s3 := { s2 with featureNames := fn }
          match env.sceneTypesRes with
          | .error e => (s3, some ("Model loading failed: " ++ e))
          | .ok st =>
            ({ s3 with sceneTypes := st, isLoaded := true }, none)

/-! ## Frame iteration -/

/-- Closed form of the frame loop, for sufficient fuel: the start
offsets are `i, i+512, i+1024, …` while below `n - 2048`. -/
lemma frameStartsAux_closed (fuel n i : ℕ) (hf : n - 2048 - i ≤ fuel) :
    frameStartsAux fuel n i =
      (List.range ((n - 2048 - i + 511) / 512)).map fun k => i + 512 * k := by
  induction fuel generalizing i with
  | zero =>
      have hc : (n - 2048 - i + 511) / 512 = 0 := by omega
      simp [frameStartsAux, hc]
  | succ f ih =>
      rw [frameStartsAux]
      by_cases h : i < n - 2048
      · rw [if_pos h, ih (i + 512) (by omega)]
        have hc : (n - 2048 - i + 511) / 512
            = (n - 2048 - (i + 512) + 511) / 512 + 1 := by omega
        rw [hc, List.range_succ_eq_map]
        simp only [List.map_cons, List.map_map, Nat.mul_zero, Nat.add_zero]
        refine congrArg₂ _ rfl (List.map_congr_left ?_)
        intro k _
        simp only [Function.comp_apply]
        omega
      · rw [if_neg h]
        have hc : (n - 2048 - i + 511) / 512 = 0 := by omega
        simp [hc]

/-- The frame starts of a signal of `n` samples are
`0, 512, 1024, …`, one per frame, `⌈(n − 2048)/512⌉` of them. -/
lemma frameStarts_closed (n : ℕ) :
    frameStarts n = (List.range ((n - 2048 + 511) / 512)).map fun k => 512 * k := by
  rw [frameStarts, frameStartsAux_closed n n 0 (by omega)]
  simp

lemma frameStarts_length (n : ℕ) :
    (frameStarts n).length = (n - 2048 + 511) / 512 := by
  rw [frameStarts_closed]
  simp

/-- A signal with at most `2048` samples produces no frame, so every
scalar pass returns the fallback series `[0]`. -/
lemma extractFramedFeature_short (ext : List ℚ → Option ℚ)
    (sig : List ℚ) (h : sig.length ≤ 2048) :
    extractFramedFeature ext sig = [0] := by
  have hz : (sig.length - 2048 + 511) / 512 = 0 := by omega
  rw [extractFramedFeature, frameStarts_closed, hz]
  simp

/-- Claim C2 (amended): the frame iteration at frame size 2048 and hop
512 produces `⌈(N − 2048)/512⌉` frames, i.e. `⌊(N − 2049)/512⌋ + 1`
frames when `N > 2048` and none when `N ≤ 2048` — in particular a
signal of exactly 2048 samples produces no frame (the loop condition
is the strict `i < N - 2048`) and triggers the `[0]` fallback. -/
theorem frame_iteration_count (n : ℕ) (ext : List ℚ → Option ℚ)
    (sig : List ℚ) :
    (frameStarts n).length = (n - 2048 + 511) / 512 ∧
    (2048 < n → (frameStarts n).length = (n - 2049) / 512 + 1) ∧
    (sig.length ≤ 2048 → extractFramedFeature ext sig = [0]) := by
  refine ⟨frameStarts_length n, ?_, extractFramedFeature_short ext sig⟩
  intro h
  rw [frameStarts_length]
  omega

/-- Claim C2, counterexample to the claim as stated: a signal of
exactly 2048 samples yields zero frames, not
`⌊(2048 − 2048)/512⌋ + 1 = 1`. -/
theorem frame_iteration_count_cx :
    (frameStarts 2048).length ≠ (2048 - 2048) / 512 + 1 := by decide

/-- Witness for `frame_iteration_count` at concrete inputs. -/
theorem frame_iteration_count_witness :
    (frameStarts 5000).length = (5000 - 2049) / 512 + 1 ∧
    extractFramedFeature (fun _ => none) [] = [0] :=
  ⟨(frame_iteration_count 5000 (fun _ => none) []).2.1 (by norm_num),
   (frame_iteration_count 5000 (fun _ => none) []).2.2 (by simp)⟩

/-! ## The per-frame validity filter (claim C3) -/

/-- Rewriting the keep-loop of `extractFramedFeatureJS` as a filter
over the per-frame results. -/
lemma filterMap_keep (l : List ℕ) (e : ℕ → JSVal) :
    (l.filterMap fun i => if keepResult (e i) then some (e i) else none)
      = (l.map e).filter keepResult := by
  induction l with
  | nil => rfl
  | cons a t ih =>
      by_cases h : keepResult (e a) <;>
        simp [List.filterMap_cons, List.filter_cons, h, ih]

/-- The validity filter as claim C3 states it: drop every non-finite
value (`NaN` and both infinities) and every non-number. -/
def keepFinite : JSVal → Bool
  | .num _ => true
  | _ => false

/-- The framed-feature pass as claim C3 describes it, dropping all
non-finite per-frame results; used only to compare against the code
behaviour `extractFramedFeatureJS`. -/
def extractFramedFeatureDropNonfinite (ext : List ℚ → JSVal)
    (signal : List ℚ) : List JSVal :=
  let kept := (frameStarts signal.length).filterMap fun i =>
    let r := ext (frameSlice signal i)
    if keepFinite r then some r else none
  if kept = [] then [.num 0] else kept

/-- Claim C3 (amended): a frame's value is dropped from the series iff
the per-frame computation yields `NaN` or a non-number — values that
are `±Infinity` pass the `typeof result === 'number' && !isNaN(result)`
test and are retained — and when no value is kept the series is the
single-element series `[0]`, so the series is never empty. -/
theorem nonfinite_frame_policy (ext : List ℚ → JSVal) (sig : List ℚ) :
    extractFramedFeatureJS ext sig ≠ [] ∧
    extractFramedFeatureJS ext sig =
      (let kept := ((frameStarts sig.length).map fun i =>
          ext (frameSlice sig i)).filter keepResult
       if kept = [] then [JSVal.num 0] else kept) ∧
    (∀ v : JSVal, keepResult v = true ↔ v ≠ .nan ∧ v ≠ .undef) := by
  refine ⟨?_, ?_, ?_⟩
  · rw [extractFramedFeatureJS]
    split <;> simp_all
  · rw [extractFramedFeatureJS, filterMap_keep]
  · intro v
    cases v <;> simp [keepResult]

/-- The 2560-sample signal framed exactly once. -/
lemma frameStarts_2560 : frameStarts 2560 = [0] := by
  rw [frameStarts_closed]
  decide

/-- Claim C3, counterexample to the claim as stated: an extractor that
yields `+Infinity` on the one frame of a 2560-sample signal has its
value retained in the series, where the claim demands the non-finite
value be dropped (which would give the fallback `[0]`). -/
theorem nonfinite_frame_policy_cx :
    extractFramedFeatureJS (fun _ => .posInf) (List.replicate 2560 0)
        = [.posInf] ∧
    extractFramedFeatureDropNonfinite (fun _ => .posInf)
        (List.replicate 2560 0) = [.num 0] ∧
    (JSVal.posInf ≠ .num 0) := by
  have h1 : (List.replicate (2560:ℕ) (0:ℚ)).length = 2560 :=
    List.length_replicate 2560 0
  refine ⟨?_, ?_, by simp⟩
  · rw [extractFramedFeatureJS, h1, frameStarts_2560]
    simp [keepResult]
  · rw [extractFramedFeatureDropNonfinite, h1, frameStarts_2560]
    simp [keepFinite]

/-! ## Feature vector assembly (claim C1) -/

/-- Accepting no candidate leaves the onset list empty. -/
lemma onsetLoop_nil (rms : List ℚ) (m v : ℚ) (minSp : ℤ)
    (idxs : List ℤ)
    (h : ∀ i ∈ idxs, onsetCond rms m v minSp [] i = false) :
    onsetLoop rms m v minSp idxs [] = [] := by
  induction idxs with
  | nil => rfl
  | cons i rest ih =>
      rw [onsetLoop, h i (by simp)]
      exact ih fun j hj => h j (by simp [hj])

/-- Membership in the candidate index range of the onset loop. -/
lemma mem_candidateIndices {minSp : ℤ} {len : ℕ} {i : ℤ} :
    i ∈ candidateIndices minSp len ↔ minSp ≤ i ∧ i < (len : ℤ) - 1 := by
  rw [candidateIndices]
  constructor
  · intro hi
    rcases List.mem_map.mp hi with ⟨k, hk, rfl⟩
    have := List.mem_range.mp hk
    omega
  · intro hi
    refine List.mem_map.mpr ⟨(i - minSp).toNat, List.mem_range.mpr ?_, ?_⟩ <;>
      omega

/-- On the single-element fallback series the tempo estimator finds no
onset and returns the default 120. -/
lemma estimateTempo_single (x : ℚ) (sr : ℚ) : estimateTempo [x] sr = 120 := by
  have hd : detectOnsets [x] sr = [] := by
    rw [detectOnsets]
    refine onsetLoop_nil _ _ _ _ _ fun i hi => ?_
    have hneg : i < 0 := by
      have := mem_candidateIndices.mp hi
      simp at this
      omega
    have hnone : valueAt [x] i = none := by
      rw [valueAt, if_pos hneg]
    simp [onsetCond, onsetValB, hnone]
  rw [estimateTempo, hd]
  simp

/-- Claim C1: the assembled feature vector always has exactly 44
slots, in the schema order (spot-checked here on the duration, sample
rate, tempo and rms-mean slots), and when a pass produced no valid
frames the `[0]` fallback populates every series-derived slot — shown
in full for a signal too short for a single frame, where the vector is
the schema head followed by zeros. -/
theorem feature_vector_schema (sq : ℚ → ℚ) (env : ExtractEnv)
    (sig : List ℚ) (sr dur : ℚ) :
    (assembleFeatures sq env sig sr dur).length = 44 ∧
    (assembleFeatures sq env sig sr dur).get? 0 = some dur ∧
    (assembleFeatures sq env sig sr dur).get? 1 = some sr ∧
    (assembleFeatures sq env sig sr dur).get? 2 =
      some ((estimateTempo (extractFramedFeature env.rms sig) sr : ℚ)) ∧
    (assembleFeatures sq env sig sr dur).get? 4 =
      some (meanQ (extractFramedFeature env.rms sig)) ∧
    (sig.length ≤ 2048 → sq 0 = 0 →
      assembleFeatures sq env sig sr dur =
        [dur, sr, 120, (jsRound (2 * dur) : ℚ), 0, 0, 0, 0, 0, 0, 0, 0] ++
          List.replicate 13 0 ++ List.replicate 7 0 ++
          List.replicate 12 0) := by
  have hm13 : (extractMFCCs env sig).length = 13 := by
    rw [extractMFCCs]
    simp
  have hc7 : (extractSpectralContrast env sig).length = 7 := by
    rw [extractSpectralContrast]
    simp
  have hch12 : (extractChroma env sig).length = 12 := by
    rw [extractChroma]
    simp
  refine ⟨?_, ?_, ?_, ?_, ?_, ?_⟩
  · rw [assembleFeatures]
    simp [hm13, hc7, hch12]
  · simp [assembleFeatures]
  · simp [assembleFeatures]
  · simp [assembleFeatures]
  · simp [assembleFeatures]
  · intro hshort hsq
    have hz : (sig.length - 2048 + 511) / 512 = 0 := by omega
    have hfs : frameStarts sig.length = [] := by
      rw [frameStarts_closed, hz]
      rfl
    have hscalar : ∀ ext, extractFramedFeature ext sig = [0] :=
      fun ext => extractFramedFeature_short ext sig hshort
    have hmean0 : meanQ [0] = 0 := by norm_num [meanQ]
    have hvar0 : varianceQ [0] = 0 := by norm_num [varianceQ, meanQ]
    have hstd0 : stdQ sq [0] = 0 := by
      rw [stdQ, if_neg (by simp), hvar0, hsq]
    have htempo : estimateTempo [0] sr = 120 := estimateTempo_single 0 sr
    have hmf : (extractMFCCs env sig).map meanQ = List.replicate 13 0 := by
      rw [extractMFCCs, hfs]
      simp [colFallback, hmean0, List.map_const']
    have hco : (extractSpectralContrast env sig).map meanQ
        = List.replicate 7 0 := by
      rw [extractSpectralContrast, hfs]
      simp [colFallback, hmean0, List.map_const']
    have hcr : (extractChroma env sig).map meanQ = List.replicate 12 0 := by
      rw [extractChroma, hfs]
      simp [colFallback, hmean0, List.map_const']
    rw [assembleFeatures]
    simp only [hscalar, htempo, hmean0, hstd0, hmf, hco, hcr]
    norm_num [listMax]

/-- A trivial extraction environment: every Meyda call yields an
invalid result, so every pass runs on the `[0]` fallback. -/
def envNone : ExtractEnv :=
  { rms := fun _ => none, zcr := fun _ => none, centroid := fun _ => none,
    rolloff := fun _ => none, spread := fun _ => none,
    flatness := fun _ => none, mfcc := fun _ => none,
    chroma := fun _ => none }

/-- Witness for `feature_vector_schema`, at the empty signal and the
trivial environment. -/
theorem feature_vector_schema_witness :
    assembleFeatures id envNone [] 44100 5 =
      [5, 44100, 120, (jsRound (2 * 5) : ℚ), 0, 0, 0, 0, 0, 0, 0, 0] ++
        List.replicate 13 0 ++ List.replicate 7 0 ++ List.replicate 12 0 :=
  (feature_vector_schema id envNone [] 44100 5).2.2.2.2.2 (by simp) rfl

/-! ## 30-second truncation (claim C10) -/

/-- The duration passed to the assembler lands in slot 0. -/
lemma assembleFeatures_first (sq : ℚ → ℚ) (env : ExtractEnv)
    (sig : List ℚ) (sr dur : ℚ) :
    (assembleFeatures sq env sig sr dur).get? 0 = some dur := by
  simp [assembleFeatures]

/-- Claim C10: only the first `min(30, duration)` seconds of samples
(that is, `⌊min(30, duration) · sampleRate⌋` samples) are analysed —
two buffers agreeing on that prefix produce identical results — and
the feature vector's duration slot holds `min(30, duration)`, hence
`30` (not the buffer duration) whenever the buffer is longer than 30
seconds. -/
theorem thirty_second_truncation (sq : ℚ → ℚ) (env : ExtractEnv)
    (samples1 samples2 : List ℚ) (sr dur : ℚ)
    (hsr : 0 ≤ sr) (hdur : 0 ≤ dur)
    (hpre : samples1.take (Int.floor (min 30 dur * sr)).toNat
          = samples2.take (Int.floor (min 30 dur * sr)).toNat) :
    extractBrowserCompatibleFeatures sq env ⟨samples1, sr, dur⟩
      = extractBrowserCompatibleFeatures sq env ⟨samples2, sr, dur⟩ ∧
    (extractBrowserCompatibleFeatures sq env ⟨samples1, sr, dur⟩).1.get? 0
      = some (min 30 dur) ∧
    (30 < dur →
      (extractBrowserCompatibleFeatures sq env
        ⟨samples1, sr, dur⟩).1.get? 0 = some 30) := by
  have hk : (0 : ℤ) ≤ Int.floor (min 30 dur * sr) := by
    have : (0 : ℚ) ≤ min 30 dur * sr :=
      mul_nonneg (le_min (by norm_num) hdur) hsr
    exact Int.floor_nonneg.mpr this
  have hs1 : jsSliceTo samples1 (Int.floor (min 30 dur * sr))
      = jsSliceTo samples2 (Int.floor (min 30 dur * sr)) := by
    rw [jsSliceTo, jsSliceTo, if_pos hk, if_pos hk]
    exact hpre
  refine ⟨?_, ?_, ?_⟩
  · rw [extractBrowserCompatibleFeatures, extractBrowserCompatibleFeatures]
    simp only at hs1 ⊢
    rw [hs1]
  · rw [extractBrowserCompatibleFeatures]
    exact assembleFeatures_first ..
  · intro h30
    rw [extractBrowserCompatibleFeatures]
    have : min (30:ℚ) dur = 30 := min_eq_left h30.le
    rw [this] at *
    exact assembleFeatures_first ..

/-- Witness for `thirty_second_truncation` at concrete buffers that
agree on the first two samples. -/
theorem thirty_second_truncation_witness :
    extractBrowserCompatibleFeatures id envNone ⟨[1, 2], 1, 2⟩
      = extractBrowserCompatibleFeatures id envNone ⟨[1, 2, 99], 1, 2⟩ ∧
    (extractBrowserCompatibleFeatures id envNone
        ⟨[1, 2], 1, 2⟩).1.get? 0 = some (min 30 2) :=
  ⟨(thirty_second_truncation id envNone [1, 2] [1, 2, 99] 1 2
      (by norm_num) (by norm_num) (by norm_num; decide)).1,
   (thirty_second_truncation id envNone [1, 2] [1, 2, 99] 1 2
      (by norm_num) (by norm_num) (by norm_num; decide)).2.1⟩

/-! ## Normalisation (claim C4) -/

/-- Claim C4 (amended): normalisation fails with the length-mismatch
error exactly when the input vector's length differs from the loaded
`mean` array's length — there is no check against the constant 44 and
no check of the `scale` array's length at all — and on success the
result standardises entry-wise, an out-of-range `scale[idx]` read
producing a `NaN` entry (division by `undefined`). -/
theorem normalize_length_checks (sc : ScalerParams) (features : List ℚ) :
    ((∃ e, normalizeFeatures (some sc) features = .error e) ↔
      features.length ≠ sc.mean.length) ∧
    (features.length = sc.mean.length →
      ∃ out, normalizeFeatures (some sc) features = .ok out ∧
        out.length = features.length ∧
        (∀ i : ℕ, i < features.length → sc.scale.length ≤ i →
          out.get? i = some .nan) ∧
        (∀ i : ℕ, ∀ hi : i < features.length, ∀ hs : i < sc.scale.length,
          out.get? i = some (jsDiv (features.get ⟨i, hi⟩ - sc.mean.getD i 0)
            (sc.scale.get ⟨i, hs⟩)))) := by
  constructor
  · constructor
    · rintro ⟨e, he⟩
      intro hlen
      rw [normalizeFeatures, if_neg (by omega)] at he
      exact Except.noConfusion he
    · intro hlen
      exact ⟨"Feature length mismatch", by rw [normalizeFeatures, if_pos hlen]⟩
  · intro hlen
    refine ⟨_, by rw [normalizeFeatures, if_neg (by omega)], ?_, ?_, ?_⟩
    · simp
    · intro i hi hs
      have hi2 : i < (features.mapIdx fun idx v =>
          match sc.scale.get? idx with
          | none => JSVal.nan
          | some s => jsDiv (v - sc.mean.getD idx 0) s).length := by
        simpa using hi
      rw [List.get?_eq_get hi2, List.get_eq_getElem, List.getElem_mapIdx]
      have : sc.scale.get? i = none := by
        rw [List.get?_eq_none]
        exact hs
      rw [this]
    · intro i hi hs
      have hi2 : i < (features.mapIdx fun idx v =>
          match sc.scale.get? idx with
          | none => JSVal.nan
          | some s => jsDiv (v - sc.mean.getD idx 0) s).length := by
        simpa using hi
      rw [List.get?_eq_get hi2, List.get_eq_getElem, List.getElem_mapIdx]
      have : sc.scale.get? i = some (sc.scale.get ⟨i, hs⟩) :=
        List.get?_eq_get hs
      rw [this]
      rfl

/-- Claim C4, counterexample to the claim as stated: a 2-element
feature vector with 2-element scaler arrays normalises without any
error (no 44 check), and a scaler whose `scale` array is empty is not
rejected either — the entry silently becomes `NaN`. -/
theorem normalize_length_checks_cx :
    normalizeFeatures (some ⟨[0, 0], [1, 1]⟩) [1, 2]
        = .ok [.num 1, .num 2] ∧
    ([1, 2] : List ℚ).length ≠ 44 ∧
    normalizeFeatures (some ⟨[0], []⟩) [5] = .ok [.nan] := by
  refine ⟨?_, by decide, ?_⟩ <;>
    · rw [normalizeFeatures]
      norm_num [List.mapIdx_cons, jsDiv]

/-- Witness for `normalize_length_checks` at a concrete scaler. -/
theorem normalize_length_checks_witness :
    ∃ out, normalizeFeatures (some ⟨[0, 0], [2]⟩) [4, 6] = .ok out ∧
      out.length = ([4, 6] : List ℚ).length ∧
      (∀ i : ℕ, i < ([4, 6] : List ℚ).length → ([2] : List ℚ).length ≤ i →
        out.get? i = some .nan) ∧
      (∀ i : ℕ, ∀ hi : i < ([4, 6] : List ℚ).length,
        ∀ hs : i < ([2] : List ℚ).length,
        out.get? i = some (jsDiv (([4, 6] : List ℚ).get ⟨i, hi⟩ -
          ([0, 0] : List ℚ).getD i 0) (([2] : List ℚ).get ⟨i, hs⟩))) :=
  (normalize_length_checks ⟨[0, 0], [2]⟩ [4, 6]).2 (by decide)

/-! ## Model loading (claim C9) -/

/-- Claim C9 (amended): `loadModel` is idempotent — when already
loaded a repeat call returns the state unchanged with no error — and
a failing call always surfaces a descriptive load error with
`isLoaded` still false (so the service never reports loaded with
partial assets), while a successful fresh load populates all four
assets and sets `isLoaded`.  It is not atomic, however: assets
assigned before the failing fetch remain assigned
(see the counterexample). -/
theorem load_model_contract (μ : Type) (env : LoadEnv μ)
    (s : ServiceState μ) :
    (s.isLoaded = true → loadModel env s = (s, none)) ∧
    (∀ s2 e, loadModel env s = (s2, some e) →
      s2.isLoaded = false ∧ s.isLoaded = false) ∧
    (∀ s2, s.isLoaded = false → loadModel env s = (s2, none) →
      s2.isLoaded = true ∧
      (∃ m, env.modelRes = .ok m ∧ s2.model = some m) ∧
      (∃ sc, env.scalerRes = .ok sc ∧ s2.scaler = some sc) ∧
      (∃ fn, env.featureNamesRes = .ok fn ∧ s2.featureNames = fn) ∧
      (∃ st, env.sceneTypesRes = .ok st ∧ s2.sceneTypes = st)) := by
  obtain ⟨mr, scr, fr, str⟩ := env
  cases hL : s.isLoaded <;>
    cases mr <;> cases scr <;> cases fr <;> cases str <;>
      simp_all [loadModel]

/-- Claim C9, counterexample to the claim as stated: when the model
graph loads but the scaler fetch fails, the call errors with
`isLoaded` still false, yet the already-assigned model remains in the
service state — the failure is not atomic. -/
theorem load_model_contract_cx :
    (loadModel (μ := Unit) ⟨.ok (), .error "404", .ok [], .ok ["a"]⟩
        (initialService Unit)).1.model = some () ∧
    (loadModel (μ := Unit) ⟨.ok (), .error "404", .ok [], .ok ["a"]⟩
        (initialService Unit)).1.scaler = none ∧
    (loadModel (μ := Unit) ⟨.ok (), .error "404", .ok [], .ok ["a"]⟩
        (initialService Unit)).2 = some "Model loading failed: 404" :=
  ⟨rfl, rfl, rfl⟩

/-- Witness for `load_model_contract`: a repeat call on an
already-loaded service is a no-op, and a fresh successful load
populates everything. -/
theorem load_model_contract_witness :
    loadModel (μ := Unit) ⟨.ok (), .ok ⟨[1], [2]⟩, .ok ["f"], .ok ["s"]⟩
        { model := some (), scaler := some ⟨[1], [2]⟩,
          featureNames := ["f"], sceneTypes := ["s"], isLoaded := true }
      = ({ model := some (), scaler := some ⟨[1], [2]⟩,
           featureNames := ["f"], sceneTypes := ["s"], isLoaded := true },
         none) ∧
    ∀ s2, loadModel (μ := Unit)
        ⟨.ok (), .ok ⟨[1], [2]⟩, .ok ["f"], .ok ["s"]⟩
        (initialService Unit) = (s2, none) → s2.isLoaded = true :=
  ⟨(load_model_contract Unit _ _).1 rfl,
   fun s2 h => ((load_model_contract Unit _ _).2.2 s2 rfl h).1⟩

/-! ## Progress stream (claim C8) -/

/-- The percents of the `PROGRESS` messages of a trace, in order. -/
def progressPercents (l : List WorkerOut) : List ℤ :=
  l.filterMap fun m =>
    match m with
    | .progress p _ => some p
    | _ => none

/-- Claim C8 (amended): for every extraction run the worker posts
exactly nine progress events — one before each of the eight feature
passes plus a final assembling event — with the fixed, strictly
increasing percents 0, 14, 28, 42, 56, 64, 78, 88, 98, all within
[0, 100]; the coordinator maps each percent `p` into its reserved
40–80 band as `40 + round(p · 0.4)`, giving the strictly increasing
band values 40, 46, 51, 57, 62, 66, 71, 75, 79. -/
theorem progress_event_stream (sq : ℚ → ℚ) (env : ExtractEnv)
    (signal : List ℚ) (sr dur : ℚ) :
    progressPercents (workerOnMessage sq env signal sr dur)
      = [0, 14, 28, 42, 56, 64, 78, 88, 98] ∧
    ((workerOnMessage sq env signal sr dur).filter
        WorkerOut.isProgress).length = 9 ∧
    List.Chain' (· < ·)
      (progressPercents (workerOnMessage sq env signal sr dur)) ∧
    ((progressPercents (workerOnMessage sq env signal sr dur)).all
        fun p => decide (0 ≤ p ∧ p ≤ 100)) = true ∧
    (progressPercents (workerOnMessage sq env signal sr dur)).map
        (fun p => mapToBand (p : ℚ))
      = [40, 46, 51, 57, 62, 66, 71, 75, 79] ∧
    List.Chain' (· < ·)
      ((progressPercents (workerOnMessage sq env signal sr dur)).map
        fun p => mapToBand (p : ℚ)) := by
  have hp : progressPercents (workerOnMessage sq env signal sr dur)
      = [0, 14, 28, 42, 56, 64, 78, 88, 98] := by
    rw [workerOnMessage, progressPercents]
    rfl
  have hround : ∀ (q : ℚ) (z : ℤ), (z : ℚ) ≤ q + 1/2 →
      q + 1/2 < (z : ℚ) + 1 → jsRound q = z := by
    intro q z h1 h2
    rw [jsRound]
    exact Int.floor_eq_iff.mpr ⟨h1, by exact_mod_cast h2⟩
  have h0 : jsRound (0 : ℚ) = 0 := hround _ _ (by norm_num) (by norm_num)
  have h14 : jsRound (28/5 : ℚ) = 6 := hround _ _ (by norm_num) (by norm_num)
  have h28 : jsRound (56/5 : ℚ) = 11 := hround _ _ (by norm_num) (by norm_num)
  have h42 : jsRound (84/5 : ℚ) = 17 := hround _ _ (by norm_num) (by norm_num)
  have h56 : jsRound (112/5 : ℚ) = 22 := hround _ _ (by norm_num) (by norm_num)
  have h64 : jsRound (128/5 : ℚ) = 26 := hround _ _ (by norm_num) (by norm_num)
  have h78 : jsRound (156/5 : ℚ) = 31 := hround _ _ (by norm_num) (by norm_num)
  have h88 : jsRound (176/5 : ℚ) = 35 := hround _ _ (by norm_num) (by norm_num)
  have h98 : jsRound (196/5 : ℚ) = 39 := hround _ _ (by norm_num) (by norm_num)
  have hb : ([0, 14, 28, 42, 56, 64, 78, 88, 98] : List ℤ).map
      (fun p => mapToBand (p : ℚ))
      = [40, 46, 51, 57, 62, 66, 71, 75, 79] := by
    norm_num [mapToBand, h0, h14, h28, h42, h56, h64, h78, h88, h98]
  refine ⟨hp, ?_, ?_, ?_, ?_, ?_⟩
  · rw [workerOnMessage]
    rfl
  · rw [hp]
    simp [List.chain'_cons]
  · rw [hp]
    decide
  · rw [hp, hb]
  · rw [hp, hb]
    simp [List.chain'_cons]

/-- Claim C8, counterexample to the claim as stated: the worker posts
nine progress events per call, not eight — there is one event before
each of the eight passes and a ninth before assembling the vector. -/
theorem progress_event_stream_cx :
    ((workerOnMessage id envNone [] 44100 5).filter
        WorkerOut.isProgress).length ≠ 8 := by
  rw [workerOnMessage]
  decide

/-! ## Rule-based classification (claim C5) -/

/-- A branch of the rule scorer contributes a non-negative amount. -/
lemma ruleTerm_nonneg (p : Prop) [Decidable p] (x : ℚ) (hx : 0 ≤ x) :
    (0 : ℚ) ≤ if p then x else 0 := by
  split_ifs <;> simp [hx]

/-- The four rule-based scores, abstracted: their values, their
non-negativity, and the total being at least 30 (for any real-valued
tempo one of the four tempo branches fires, so the `total || 1` guard
in the source is never exercised on real inputs). -/
lemma ruleScores_spec (t a b c : ℚ) :
    ∃ sa sb sc sd,
      ruleScores t a b c =
        [("Action & Intensity", sa), ("Ambiance & Texture", sb),
         ("Drama & Emotional", sc), ("Montage & Narrative", sd)] ∧
      0 ≤ sa ∧ 0 ≤ sb ∧ 0 ≤ sc ∧ 0 ≤ sd ∧ 30 ≤ sa + sb + sc + sd := by
  refine ⟨_, _, _, _, rfl, ?_, ?_, ?_, ?_, ?_⟩
  · have h1 := ruleTerm_nonneg (130 < t) (40 : ℚ) (by norm_num)
    have h2 := ruleTerm_nonneg (12/100 < a) (30 : ℚ) (by norm_num)
    have h3 := ruleTerm_nonneg (2000 < c) (30 : ℚ) (by norm_num)
    linarith
  · have h1 := ruleTerm_nonneg (a < 8/100) (40 : ℚ) (by norm_num)
    have h2 := ruleTerm_nonneg (b < 4/100) (30 : ℚ) (by norm_num)
    have h3 := ruleTerm_nonneg (t < 100) (30 : ℚ) (by norm_num)
    linarith
  · have h1 := ruleTerm_nonneg (80 ≤ t ∧ t ≤ 120) (30 : ℚ) (by norm_num)
    have h2 := ruleTerm_nonneg (5/100 < b) (40 : ℚ) (by norm_num)
    have h3 := ruleTerm_nonneg (c < 1800) (30 : ℚ) (by norm_num)
    linarith
  · have h1 := ruleTerm_nonneg (100 ≤ t ∧ t ≤ 140) (40 : ℚ) (by norm_num)
    have h2 := ruleTerm_nonneg (8/100 ≤ a ∧ a ≤ 12/100) (30 : ℚ)
      (by norm_num)
    have h3 := ruleTerm_nonneg (3/100 ≤ b ∧ b ≤ 6/100) (30 : ℚ)
      (by norm_num)
    linarith
  · have n1 := ruleTerm_nonneg (130 < t) (40 : ℚ) (by norm_num)
    have n2 := ruleTerm_nonneg (12/100 < a) (30 : ℚ) (by norm_num)
    have n3 := ruleTerm_nonneg (2000 < c) (30 : ℚ) (by norm_num)
    have n4 := ruleTerm_nonneg (a < 8/100) (40 : ℚ) (by norm_num)
    have n5 := ruleTerm_nonneg (b < 4/100) (30 : ℚ) (by norm_num)
    have n6 := ruleTerm_nonneg (t < 100) (30 : ℚ) (by norm_num)
    have n7 := ruleTerm_nonneg (80 ≤ t ∧ t ≤ 120) (30 : ℚ) (by norm_num)
    have n8 := ruleTerm_nonneg (5/100 < b) (40 : ℚ) (by norm_num)
    have n9 := ruleTerm_nonneg (c < 1800) (30 : ℚ) (by norm_num)
    have n10 := ruleTerm_nonneg (100 ≤ t ∧ t ≤ 140) (40 : ℚ) (by norm_num)
    have n11 := ruleTerm_nonneg (8/100 ≤ a ∧ a ≤ 12/100) (30 : ℚ)
      (by norm_num)
    have n12 := ruleTerm_nonneg (3/100 ≤ b ∧ b ≤ 6/100) (30 : ℚ)
      (by norm_num)
    rcases lt_or_le t 100 with h1 | h1
    · have e : (if t < 100 then (30 : ℚ) else 0) = 30 := if_pos h1
      linarith
    · rcases le_or_lt t 140 with h2 | h2
      · have e : (if 100 ≤ t ∧ t ≤ 140 then (40 : ℚ) else 0) = 40 :=
          if_pos ⟨h1, h2⟩
        linarith
      · have e : (if 130 < t then (40 : ℚ) else 0) = 40 :=
          if_pos (by linarith)
        linarith

/-- A running maximum lands on the seed or on a list element. -/
lemma foldl_max_mem : ∀ (xs : List ℚ) (x : ℚ), xs.foldl max x ∈ x :: xs := by
  intro xs
  induction xs with
  | nil => intro x; simp
  | cons y ys ih =>
      intro x
      rw [List.foldl_cons]
      rcases List.mem_cons.mp (ih (max x y)) with h | h
      · rcases max_choice x y with hxy | hxy <;> rw [h, hxy] <;> simp
      · simp [h]

/-- The maximum of a non-empty list is attained. -/
lemma listMax_mem (l : List ℚ) (hl : l ≠ []) : listMax l ∈ l := by
  match l with
  | x :: xs =>
      rw [listMax]
      exact foldl_max_mem xs x

/-- Dividing every entry by a positive constant commutes with the
running maximum. -/
lemma foldl_max_div (c : ℚ) (hc : 0 < c) :
    ∀ (l : List ℚ) (x : ℚ),
      (l.map (· / c)).foldl max (x / c) = (l.foldl max x) / c := by
  intro l
  induction l with
  | nil => intro x; rfl
  | cons y ys ih =>
      intro x
      rw [List.map_cons, List.foldl_cons, List.foldl_cons,
        max_div_div_right hc.le x y]
      exact ih (max x y)

/-- `listMax` of a list divided entry-wise by a positive constant. -/
lemma listMax_div (l : List ℚ) (c : ℚ) (hc : 0 < c) :
    listMax (l.map (· / c)) = listMax l / c := by
  match l with
  | [] => simp [listMax, hc.ne]
  | x :: xs =>
      rw [List.map_cons, listMax, listMax]
      exact foldl_max_div c hc xs x

/-- `find?` on the probability list (entries divided by a positive
total) mirrors `find?` on the score list. -/
lemma find?_div (l : List (String × ℚ)) (tot M : ℚ) (ht : tot ≠ 0) :
    ((l.map fun kv => (kv.1, kv.2 / tot)).find?
        fun kv => decide (kv.2 = M / tot))
      = (l.find? fun kv => decide (kv.2 = M)).map
          fun kv => (kv.1, kv.2 / tot) := by
  induction l with
  | nil => rfl
  | cons a t ih =>
      rw [List.map_cons, List.find?_cons, List.find?_cons]
      have hdec : (decide (a.2 / tot = M / tot)) = (decide (a.2 = M)) := by
        apply decide_eq_decide.mpr
        constructor
        · intro h
          field_simp at h
          exact h
        · intro h
          rw [h]
      rw [hdec]
      cases hd : decide (a.2 = M) <;> simp [ih]

/-- Claim C5 (amended): for every 44-element feature vector the
rule-based `predict` succeeds and returns a probability mapping over
the fixed label ordering whose entries are non-negative and sum to
exactly 1 (the score total is always at least 30 for real inputs, so
probabilities always normalise and the `total || 1` guard never
fires); the reported `sceneType` is the first label attaining the
maximum probability; but the reported confidence is `maxScore / 100`,
which in general differs from the maximum probability. -/
theorem predict_distribution (f : List ℚ) (hf : f.length = 44) :
    ∃ p, predict f = .ok p ∧
      p.probabilities.map Prod.fst = sceneLabels ∧
      (∀ kv ∈ p.probabilities, 0 ≤ kv.2) ∧
      (p.probabilities.map Prod.snd).sum = 1 ∧
      (p.probabilities.find? fun kv =>
          decide (kv.2 = listMax (p.probabilities.map Prod.snd)))
        = some (p.sceneType, listMax (p.probabilities.map Prod.snd)) ∧
      p.confidence = listMax ((ruleScores (f.getD 2 0) (f.getD 4 0)
        (f.getD 5 0) (f.getD 8 0)).map Prod.snd) / 100 := by
  obtain ⟨sa, sb, sc, sd, hS, ha, hb, hc, hd, hsum⟩ :=
    ruleScores_spec (f.getD 2 0) (f.getD 4 0) (f.getD 5 0) (f.getD 8 0)
  have htot : ((ruleScores (f.getD 2 0) (f.getD 4 0) (f.getD 5 0)
      (f.getD 8 0)).map Prod.snd).sum = sa + sb + sc + sd := by
    rw [hS]
    simp
    ring
  have htpos : (0 : ℚ) < sa + sb + sc + sd := by linarith
  have hnil : ruleScores (f.getD 2 0) (f.getD 4 0) (f.getD 5 0)
      (f.getD 8 0) ≠ [] := by
    rw [hS]
    simp
  have hmem : listMax ((ruleScores (f.getD 2 0) (f.getD 4 0) (f.getD 5 0)
        (f.getD 8 0)).map Prod.snd)
      ∈ (ruleScores (f.getD 2 0) (f.getD 4 0) (f.getD 5 0)
        (f.getD 8 0)).map Prod.snd := by
    apply listMax_mem
    rw [hS]
    simp
  obtain ⟨kv1, hkv1mem, hkv12⟩ := List.mem_map.mp hmem
  have hfindS : ((ruleScores (f.getD 2 0) (f.getD 4 0) (f.getD 5 0)
        (f.getD 8 0)).find? fun kv => decide (kv.2 =
          listMax ((ruleScores (f.getD 2 0) (f.getD 4 0) (f.getD 5 0)
            (f.getD 8 0)).map Prod.snd))).isSome := by
    rw [List.find?_isSome]
    exact ⟨kv1, hkv1mem, by simp [hkv12]⟩
  obtain ⟨kv0, hfind⟩ := Option.isSome_iff_exists.mp hfindS
  have hkv02 : kv0.2 = listMax ((ruleScores (f.getD 2 0) (f.getD 4 0)
      (f.getD 5 0) (f.getD 8 0)).map Prod.snd) := by
    simpa using List.find?_some hfind
  rw [predict, if_neg (by omega)]
  simp only [htot, if_neg htpos.ne', hfind]
  refine ⟨_, rfl, ?_, ?_, ?_, ?_, rfl⟩
  · rw [hS]
    simp [sceneLabels]
  · rw [hS]
    intro kv hkv
    simp only [List.map_cons, List.map_nil, List.mem_cons,
      List.not_mem_nil, or_false] at hkv
    rcases hkv with h | h | h | h <;>
      · subst h
        exact div_nonneg (by assumption) htpos.le
  · rw [hS]
    simp only [List.map_cons, List.map_nil, List.sum_cons, List.sum_nil]
    field_simp
    ring
  · have hmaps : ((ruleScores (f.getD 2 0) (f.getD 4 0) (f.getD 5 0)
        (f.getD 8 0)).map fun kv =>
          (kv.1, kv.2 / (sa + sb + sc + sd))).map Prod.snd
        = ((ruleScores (f.getD 2 0) (f.getD 4 0) (f.getD 5 0)
          (f.getD 8 0)).map Prod.snd).map (· / (sa + sb + sc + sd)) := by
      simp [List.map_map]
    simp only [hmaps, listMax_div _ _ htpos]
    rw [find?_div _ _ _ htpos.ne', hfind]
    simp [hkv02]

/-- A concrete 44-element feature vector: tempo 150, rms mean 0.2,
rms std 0.1, spectral centroid 2500, all other slots zero. -/
def cFeat : List ℚ :=
  [0, 0, 150, 0, 1/5, 1/10, 0, 0, 2500] ++ List.replicate 35 0

/-- Claim C5, counterexample to the claim as stated: on `cFeat` the
scores are (100, 0, 40, 0), so the maximum probability is 5/7, but the
reported confidence is `maxScore / 100 = 1 ≠ 5/7` — the confidence is
not the winning label's probability. -/
theorem predict_distribution_cx :
    predict cFeat = .ok
      { sceneType := "Action & Intensity", confidence := 1,
        probabilities :=
          [("Action & Intensity", 5/7), ("Ambiance & Texture", 0),
           ("Drama & Emotional", 2/7), ("Montage & Narrative", 0)] } ∧
    listMax ([("Action & Intensity", (5:ℚ)/7), ("Ambiance & Texture", 0),
      ("Drama & Emotional", 2/7),
      ("Montage & Narrative", 0)].map Prod.snd) = 5/7 ∧
    (1 : ℚ) ≠ 5/7 := by
  have hfeat : cFeat.length = 44 := by
    rw [cFeat]
    decide
  have h2 : cFeat.getD 2 0 = 150 := by norm_num [cFeat]
  have h4 : cFeat.getD 4 0 = 1/5 := by norm_num [cFeat]
  have h5 : cFeat.getD 5 0 = 1/10 := by norm_num [cFeat]
  have h8 : cFeat.getD 8 0 = 2500 := by norm_num [cFeat]
  have hscores : ruleScores 150 (1/5) (1/10) 2500 =
      [("Action & Intensity", 100), ("Ambiance & Texture", 0),
       ("Drama & Emotional", 40), ("Montage & Narrative", 0)] := by
    rw [ruleScores]
    norm_num
  have hmax : listMax ([("Action & Intensity", (100:ℚ)),
      ("Ambiance & Texture", 0), ("Drama & Emotional", 40),
      ("Montage & Narrative", 0)].map Prod.snd) = 100 := by
    norm_num [listMax, max_def]
  have hfind : List.find? (fun kv => decide (kv.2 = (100:ℚ)))
      [("Action & Intensity", (100:ℚ)), ("Ambiance & Texture", 0),
       ("Drama & Emotional", 40), ("Montage & Narrative", 0)]
      = some ("Action & Intensity", 100) := by
    rw [List.find?_cons_of_pos _ (by norm_num)]
  refine ⟨?_, by norm_num [listMax, max_def], by norm_num⟩
  rw [predict, if_neg (by omega), h2, h4, h5, h8]
  simp only [hscores, hmax, hfind]
  norm_num

/-- Witness for `predict_distribution` at the concrete vector
`cFeat`. -/
theorem predict_distribution_witness :
    ∃ p, predict cFeat = .ok p ∧
      p.probabilities.map Prod.fst = sceneLabels ∧
      (∀ kv ∈ p.probabilities, 0 ≤ kv.2) ∧
      (p.probabilities.map Prod.snd).sum = 1 ∧
      (p.probabilities.find? fun kv =>
          decide (kv.2 = listMax (p.probabilities.map Prod.snd)))
        = some (p.sceneType, listMax (p.probabilities.map Prod.snd)) ∧
      p.confidence = listMax ((ruleScores (cFeat.getD 2 0)
        (cFeat.getD 4 0) (cFeat.getD 5 0)
        (cFeat.getD 8 0)).map Prod.snd) / 100 :=
  predict_distribution cFeat (by rw [cFeat]; decide)

/-! ## Tempo estimation (claims C6 and C7) -/

/-- `jsRound` at a value pinned between two integers. -/
lemma jsRound_eq {q : ℚ} {z : ℤ} (h1 : (z : ℚ) ≤ q + 1/2)
    (h2 : q + 1/2 < (z : ℚ) + 1) : jsRound q = z := by
  rw [jsRound]
  exact Int.floor_eq_iff.mpr ⟨h1, by exact_mod_cast h2⟩

/-- The variance of a series is non-negative. -/
lemma varianceQ_nonneg (l : List ℚ) : 0 ≤ varianceQ l := by
  by_cases h : l = []
  · simp [varianceQ, h]
  · rw [varianceQ, if_neg h]
    apply div_nonneg
    · apply List.sum_nonneg
      intro x hx
      rcases List.mem_map.mp hx with ⟨y, _, rfl⟩
      positivity
    · positivity

/-- Soundness of the rational threshold test against the real
threshold of the source, `mean + 0.3 * Math.sqrt(variance)`:
for `v ≥ 0`, `exceedsThreshold x m v` holds iff
`x > m + 0.3·√v` over the reals. -/
lemma exceedsThreshold_iff_real (x m v : ℚ) (hv : 0 ≤ v) :
    (exceedsThreshold x m v = true ↔
      (m : ℝ) + 3/10 * Real.sqrt (v : ℝ) < (x : ℝ)) := by
  rw [exceedsThreshold]
  simp only [Bool.and_eq_true, decide_eq_true_eq]
  have hvR : (0 : ℝ) ≤ (v : ℝ) := by exact_mod_cast hv
  have hsq : Real.sqrt (v : ℝ) ^ 2 = (v : ℝ) := Real.sq_sqrt hvR
  have hsnn : (0 : ℝ) ≤ Real.sqrt (v : ℝ) := Real.sqrt_nonneg _
  constructor
  · rintro ⟨h1, h2⟩
    have hxR : (m : ℝ) < (x : ℝ) := by exact_mod_cast h1
    have h2R : (9/100 : ℝ) * (v : ℝ) < ((x : ℝ) - (m : ℝ)) ^ 2 := by
      have hc := (Rat.cast_lt (K := ℝ)).mpr h2
      push_cast at hc
      linarith
    have hlt : 3/10 * Real.sqrt (v : ℝ) < (x : ℝ) - (m : ℝ) := by
      apply lt_of_pow_lt_pow_left₀ 2 (by linarith)
      calc (3/10 * Real.sqrt (v : ℝ)) ^ 2
          = 9/100 * (v : ℝ) := by rw [mul_pow, hsq]; ring
        _ < ((x : ℝ) - (m : ℝ)) ^ 2 := h2R
    linarith
  · intro h
    have hxR : (m : ℝ) < (x : ℝ) := by nlinarith
    refine ⟨by exact_mod_cast hxR, ?_⟩
    have hlt : 3/10 * Real.sqrt (v : ℝ) < (x : ℝ) - (m : ℝ) := by
      linarith
    have h2 := pow_lt_pow_left₀ hlt (by positivity) (by norm_num : 2 ≠ 0)
    rw [mul_pow, hsq] at h2
    have h9 : ((9/100 * v : ℚ) : ℝ) < (((x - m) ^ 2 : ℚ) : ℝ) := by
      push_cast
      nlinarith
    exact_mod_cast h9

/-- A value not above 180 is untouched by the halving loop. -/
lemma halveLoop_stay (f : ℕ) (t : ℚ) (h : ¬ 180 < t) :
    halveLoop f t = t := by
  cases f <;> simp [halveLoop, h]

/-- A value not below 80 is untouched by the doubling loop. -/
lemma doubleLoop_stay (f : ℕ) (t : ℚ) (h : ¬ t < 80) :
    doubleLoop f t = t := by
  cases f <;> simp [doubleLoop, h]

/-- The halving loop only ever divides by a power of two. -/
lemma halveLoop_pow (f : ℕ) (t : ℚ) :
    ∃ n : ℕ, halveLoop f t = t / 2 ^ n := by
  induction f generalizing t with
  | zero => exact ⟨0, by simp [halveLoop]⟩
  | succ f ih =>
      by_cases h : 180 < t
      · rw [halveLoop, if_pos h]
        obtain ⟨n, hn⟩ := ih (t / 2)
        refine ⟨n + 1, ?_⟩
        rw [hn, div_div, ← pow_succ']
      · exact ⟨0, by rw [halveLoop, if_neg h]; simp⟩

/-- With sufficient fuel the halving loop ends at or below 180. -/
lemma halveLoop_le (f : ℕ) (t : ℚ) (ht : 0 < t)
    (hf : t ≤ 180 * 2 ^ f) : halveLoop f t ≤ 180 := by
  induction f generalizing t with
  | zero => simpa [halveLoop] using hf
  | succ f ih =>
      by_cases h : 180 < t
      · rw [halveLoop, if_pos h]
        apply ih (t / 2) (by positivity)
        rw [pow_succ] at hf
        rw [div_le_iff₀ (by norm_num : (0:ℚ) < 2)]
        linarith
      · rw [halveLoop, if_neg h]
        exact not_lt.mp h

/-- The doubling loop only ever multiplies by a power of two. -/
lemma doubleLoop_pow (f : ℕ) (t : ℚ) :
    ∃ m : ℕ, doubleLoop f t = t * 2 ^ m := by
  induction f generalizing t with
  | zero => exact ⟨0, by simp [doubleLoop]⟩
  | succ f ih =>
      by_cases h : t < 80
      · rw [doubleLoop, if_pos h]
        obtain ⟨m, hm⟩ := ih (t * 2)
        refine ⟨m + 1, ?_⟩
        rw [hm, pow_succ']
        ring
      · exact ⟨0, by rw [doubleLoop, if_neg h]; simp⟩

/-- With sufficient fuel the doubling loop ends at or above 80. -/
lemma doubleLoop_ge (f : ℕ) (t : ℚ) (ht : 0 < t)
    (hf : 80 ≤ t * 2 ^ f) : 80 ≤ doubleLoop f t := by
  induction f generalizing t with
  | zero => simpa [doubleLoop] using hf
  | succ f ih =>
      by_cases h : t < 80
      · rw [doubleLoop, if_pos h]
        apply ih (t * 2) (by positivity)
        rw [pow_succ] at hf
        linarith
      · rw [doubleLoop, if_neg h]
        exact not_lt.mp h

/-- The doubling loop never overshoots 180 when started at or below
180 (it only doubles values below 80, landing below 160). -/
lemma doubleLoop_le (f : ℕ) (t : ℚ) (ht : t ≤ 180) :
    doubleLoop f t ≤ 180 := by
  induction f generalizing t with
  | zero => simpa [doubleLoop] using ht
  | succ f ih =>
      by_cases h : t < 80
      · rw [doubleLoop, if_pos h]
        exact ih (t * 2) (by linarith)
      · rw [doubleLoop, if_neg h]
        exact ht

/-- The halving fuel `t.num.natAbs` chosen by `octaveCorrect` is
sufficient. -/
lemma halve_fuel_sufficient (t : ℚ) (ht : 0 < t) :
    t ≤ 180 * 2 ^ t.num.natAbs := by
  have hnp : 0 < t.num := Rat.num_pos.mpr ht
  have h1 : t ≤ (t.num : ℚ) := by
    conv_lhs => rw [← Rat.num_div_den t]
    apply div_le_self (by exact_mod_cast hnp.le)
    exact_mod_cast t.pos
  have h2 : (t.num.natAbs : ℚ) = (t.num : ℚ) := by
    rw [Int.cast_natAbs, abs_of_pos (by exact_mod_cast hnp)]
  have h3 : (t.num.natAbs : ℚ) < 2 ^ t.num.natAbs := by
    exact_mod_cast Nat.lt_two_pow t.num.natAbs
  have h4 : (2:ℚ) ^ t.num.natAbs ≤ 180 * 2 ^ t.num.natAbs := by
    nlinarith [pow_pos (by norm_num : (0:ℚ) < 2) t.num.natAbs]
  linarith [h2 ▸ h1]

/-- The doubling fuel `t₁.den + 7` chosen by `octaveCorrect` is
sufficient. -/
lemma double_fuel_sufficient (t : ℚ) (ht : 0 < t) :
    80 ≤ t * 2 ^ (t.den + 7) := by
  have hden : (0 : ℚ) < (t.den : ℚ) := by exact_mod_cast t.pos
  have hnum : (1 : ℚ) ≤ (t.num : ℚ) := by
    exact_mod_cast Rat.num_pos.mpr ht
  have ht1 : 1 / (t.den : ℚ) ≤ t := by
    conv_rhs => rw [← Rat.num_div_den t]
    exact (div_le_div_iff_of_pos_right hden).mpr hnum
  have h2d : (t.den : ℚ) ≤ 2 ^ t.den := by
    exact_mod_cast (Nat.lt_two_pow t.den).le
  have h5 : (1 : ℚ) ≤ 2 ^ t.den / (t.den : ℚ) := (one_le_div hden).mpr h2d
  have h6 : (80 : ℚ) ≤ (1 / t.den) * 2 ^ (t.den + 7) := by
    calc (80 : ℚ) ≤ 128 * (2 ^ t.den / t.den) := by nlinarith
      _ = (1 / t.den) * 2 ^ (t.den + 7) := by
          rw [pow_add]
          field_simp
          norm_num
          ring
  have h7 : (1 / (t.den : ℚ)) * 2 ^ (t.den + 7) ≤ t * 2 ^ (t.den + 7) :=
    mul_le_mul_of_nonneg_right ht1 (by positivity)
  linarith

/-- The two octave-correction loops, with the fuel chosen in
`octaveCorrect`: the result is an octave shift `t · 2^k` of the input
lying in the band [80, 180]. -/
lemma octaveCorrect_spec (t : ℚ) (ht : 0 < t) :
    ∃ k : ℤ, octaveCorrect t = t * 2 ^ k ∧
      80 ≤ octaveCorrect t ∧ octaveCorrect t ≤ 180 := by
  rw [octaveCorrect]
  obtain ⟨n, hn⟩ := halveLoop_pow t.num.natAbs t
  have ht1pos : 0 < halveLoop t.num.natAbs t := by
    rw [hn]
    positivity
  have ht1le : halveLoop t.num.natAbs t ≤ 180 :=
    halveLoop_le _ t ht (halve_fuel_sufficient t ht)
  obtain ⟨m, hm⟩ := doubleLoop_pow ((halveLoop t.num.natAbs t).den + 7)
    (halveLoop t.num.natAbs t)
  refine ⟨(m : ℤ) - n, ?_, ?_, ?_⟩
  · rw [hm, hn]
    rw [zpow_sub₀ (by norm_num : (2:ℚ) ≠ 0)]
    rw [zpow_natCast, zpow_natCast]
    field_simp
  · exact doubleLoop_ge _ _ ht1pos
      (double_fuel_sufficient _ ht1pos)
  · exact doubleLoop_le _ _ ht1le

/-- Everything in the accumulator survives the onset loop. -/
lemma onsetLoop_acc_subset (rms : List ℚ) (m v : ℚ) (minSp : ℤ) :
    ∀ (idxs acc : List ℤ), ∀ x ∈ acc,
      x ∈ onsetLoop rms m v minSp idxs acc := by
  intro idxs
  induction idxs with
  | nil => intro acc x hx; simpa [onsetLoop] using hx
  | cons i rest ih =>
      intro acc x hx
      rw [onsetLoop]
      apply ih
      split
      · exact List.mem_append_left _ hx
      · exact hx

/-- Every onset comes from the accumulator or the candidate list. -/
lemma onsetLoop_mem_subset (rms : List ℚ) (m v : ℚ) (minSp : ℤ) :
    ∀ (idxs acc : List ℤ), ∀ x,
      x ∈ onsetLoop rms m v minSp idxs acc → x ∈ acc ∨ x ∈ idxs := by
  intro idxs
  induction idxs with
  | nil => intro acc x hx; simp_all [onsetLoop]
  | cons i rest ih =>
      intro acc x hx
      rw [onsetLoop] at hx
      rcases ih _ x hx with h | h
      · by_cases hc : onsetCond rms m v minSp acc i = true
        · rw [if_pos hc] at h
          rcases List.mem_append.mp h with h2 | h2
          · exact Or.inl h2
          · simp at h2
            simp [h2]
        · rw [if_neg hc] at h
          exact Or.inl h
      · simp [h]

/-- The onset list stays strictly increasing throughout the loop. -/
lemma onsetLoop_pairwise (rms : List ℚ) (m v : ℚ) (minSp : ℤ) :
    ∀ (idxs acc : List ℤ), idxs.Pairwise (· < ·) →
      acc.Pairwise (· < ·) → (∀ a ∈ acc, ∀ i ∈ idxs, a < i) →
      (onsetLoop rms m v minSp idxs acc).Pairwise (· < ·) := by
  intro idxs
  induction idxs with
  | nil => intro acc _ hacc _; simpa [onsetLoop] using hacc
  | cons i rest ih =>
      intro acc hidx hacc hcross
      rw [onsetLoop]
      have hrest : rest.Pairwise (· < ·) := hidx.of_cons
      have hhead : ∀ r ∈ rest, i < r :=
        fun r hr => List.rel_of_pairwise_cons hidx hr
      apply ih _ hrest
      · split
        · refine List.pairwise_append.mpr ⟨hacc, by simp, ?_⟩
          intro a ha b hb
          simp at hb
          subst hb
          exact hcross a ha _ (by simp)
        · exact hacc
      · intro a ha r hr
        have hri : r ∈ i :: rest := by simp [hr]
        split at ha
        · rcases List.mem_append.mp ha with h2 | h2
          · exact hcross a h2 r hri
          · simp at h2
            subst h2
            exact hhead r hr
        · exact hcross a ha r hri

/-- In a strictly increasing list the last element is the maximum. -/
lemma getLast?_max :
    ∀ (l : List ℤ), l.Pairwise (· < ·) → ∀ j, l.getLast? = some j →
      ∀ a ∈ l, a ≤ j := by
  intro l
  induction l with
  | nil => intro _ j hj; simp at hj
  | cons x t ih =>
      intro hp j hj a ha
      cases t with
      | nil =>
          simp at hj ha
          omega
      | cons y t2 =>
          rw [List.getLast?_cons_cons] at hj
          have hjmem : j ∈ y :: t2 := List.mem_of_mem_getLast? hj
          rcases List.mem_cons.mp ha with rfl | hat
          · exact (List.rel_of_pairwise_cons hp hjmem).le
          · exact ih hp.of_cons j hj a hat

/-- Membership characterisation of the onset loop: an index is an
onset iff it is a candidate, its value conditions hold, and it is more
than `minSpacing` frames after every earlier onset (equivalently,
after the immediately preceding one, since onsets are increasing). -/
lemma onsetLoop_mem_iff (rms : List ℚ) (m v : ℚ) (minSp : ℤ) :
    ∀ (idxs acc : List ℤ), idxs.Pairwise (· < ·) →
      acc.Pairwise (· < ·) → (∀ a ∈ acc, ∀ i ∈ idxs, a < i) →
      ∀ x, (x ∈ onsetLoop rms m v minSp idxs acc ↔
        (x ∈ acc ∨ (x ∈ idxs ∧ onsetValB rms m v x = true ∧
          ∀ j ∈ onsetLoop rms m v minSp idxs acc, j < x →
            minSp < x - j))) := by
  intro idxs
  induction idxs with
  | nil =>
      intro acc _ _ _ x
      simp [onsetLoop]
  | cons i rest ih =>
      intro acc hidx hacc hcross x
      have hrest : rest.Pairwise (· < ·) := hidx.of_cons
      have hhead : ∀ r ∈ rest, i < r :=
        fun r hr => List.rel_of_pairwise_cons hidx hr
      have hai : ∀ a ∈ acc, a < i := fun a ha => hcross a ha i (by simp)
      by_cases hc : onsetCond rms m v minSp acc i = true
      · -- the candidate i is accepted
        have hacc' : (acc ++ [i]).Pairwise (· < ·) :=
          List.pairwise_append.mpr ⟨hacc, by simp, by
            intro a ha b hb
            simp at hb
            subst hb
            exact hai a ha⟩
        have hcross' : ∀ a ∈ acc ++ [i], ∀ r ∈ rest, a < r := by
          intro a ha r hr
          rcases List.mem_append.mp ha with h2 | h2
          · exact hcross a h2 r (by simp [hr])
          · simp at h2
            subst h2
            exact hhead r hr
        have hL : onsetLoop rms m v minSp (i :: rest) acc
            = onsetLoop rms m v minSp rest (acc ++ [i]) := by
          rw [onsetLoop, if_pos hc]
        have hIH := ih (acc ++ [i]) hrest hacc' hcross'
        rw [hL]
        rw [hIH x]
        have hval : onsetValB rms m v i = true :=
          (Bool.and_eq_true _ _ |>.mp hc).1
        have hgap : onsetGapB minSp acc i = true :=
          (Bool.and_eq_true _ _ |>.mp hc).2
        have hgapR : ∀ j ∈ onsetLoop rms m v minSp rest (acc ++ [i]),
            j < i → minSp < i - j := by
          intro j hj hji
          rcases onsetLoop_mem_subset rms m v minSp rest (acc ++ [i]) j hj
            with h2 | h2
          · rcases List.mem_append.mp h2 with h3 | h3
            · -- j is an earlier accepted onset: the gap check covers it
              rw [onsetGapB] at hgap
              rcases Bool.or_eq_true _ _ |>.mp hgap with he | hm2
              · rw [List.isEmpty_iff] at he
                rw [he] at h3
                simp at h3
              · rcases hlast : acc.getLast? with _ | jl
                · rw [hlast] at hm2
                  rcases List.getLast?_eq_none_iff.mp hlast with rfl
                  simp at h3
                · rw [hlast] at hm2
                  have hjle : j ≤ jl := getLast?_max acc hacc jl hlast j h3
                  have := of_decide_eq_true hm2
                  omega
            · simp at h3
              omega
          · exact absurd hji (not_lt.mpr (hhead j h2).le)
        constructor
        · rintro (h2 | ⟨hr, hv, hg⟩)
          · rcases List.mem_append.mp h2 with h3 | h3
            · exact Or.inl h3
            · simp at h3
              subst h3
              exact Or.inr ⟨by simp, hval, hgapR⟩
          · exact Or.inr ⟨by simp [hr], hv, hg⟩
        · rintro (h2 | ⟨hr, hv, hg⟩)
          · exact Or.inl (List.mem_append_left _ h2)
          · rcases List.mem_cons.mp hr with rfl | h3
            · exact Or.inl (List.mem_append_right _ (by simp))
            · exact Or.inr ⟨h3, hv, hg⟩
      · -- the candidate i is rejected
        have hL : onsetLoop rms m v minSp (i :: rest) acc
            = onsetLoop rms m v minSp rest acc := by
          rw [onsetLoop, if_neg hc]
        have hIH := ih acc hrest hacc
          (fun a ha r hr => hcross a ha r (by simp [hr]))
        rw [hL, hIH x]
        constructor
        · rintro (h2 | ⟨hr, hv, hg⟩)
          · exact Or.inl h2
          · exact Or.inr ⟨by simp [hr], hv, hg⟩
        · rintro (h2 | ⟨hr, hv, hg⟩)
          · exact Or.inl h2
          · rcases List.mem_cons.mp hr with rfl | h3
            · exfalso
              have hgapF : onsetGapB minSp acc x = false := by
                rcases Bool.eq_false_or_eq_true (onsetGapB minSp acc x)
                  with ht | hf
                · exact absurd (by rw [onsetCond, hv, ht]; rfl : onsetCond
                    rms m v minSp acc x = true) hc
                · exact hf
              rw [onsetGapB] at hgapF
              rcases hlast : acc.getLast? with _ | jl
              · rw [hlast] at hgapF
                simp at hgapF
              · rw [hlast] at hgapF
                have h4 : ¬ acc = [] ∧ x ≤ minSp + jl := by
                  simpa using hgapF
                have hjl_mem : jl ∈ acc := List.mem_of_mem_getLast? hlast
                have hjl_in : jl ∈ onsetLoop rms m v minSp rest acc :=
                  onsetLoop_acc_subset rms m v minSp rest acc jl hjl_mem
                have hjl_lt : jl < x := hai jl hjl_mem
                have h5 := hg jl hjl_in hjl_lt
                have h6 := h4.2
                omega
            · exact Or.inr ⟨h3, hv, hg⟩

/-- The candidate indices are strictly increasing. -/
lemma candidateIndices_pairwise (minSp : ℤ) (len : ℕ) :
    (candidateIndices minSp len).Pairwise (· < ·) := by
  rw [candidateIndices]
  refine List.Pairwise.map _ ?_ (List.pairwise_lt_range _)
  intro a b hab
  omega

/-- The detected onsets are strictly increasing. -/
lemma detectOnsets_pairwise (rms : List ℚ) (sr : ℚ) :
    (detectOnsets rms sr).Pairwise (· < ·) := by
  rw [detectOnsets]
  exact onsetLoop_pairwise _ _ _ _ _ _ (candidateIndices_pairwise _ _)
    (by simp) (by simp)

/-- Membership characterisation of `detectOnsets`. -/
lemma detectOnsets_mem_iff (rms : List ℚ) (sr : ℚ) (i : ℤ) :
    i ∈ detectOnsets rms sr ↔
      (minSpacingOf sr ≤ i ∧ i < (rms.length : ℤ) - 1 ∧
       onsetValB rms (meanQ rms) (varianceQ rms) i = true ∧
       ∀ j ∈ detectOnsets rms sr, j < i →
         minSpacingOf sr < i - j) := by
  conv_lhs => rw [detectOnsets]
  rw [detectOnsets]
  rw [onsetLoop_mem_iff _ _ _ _ _ _ (candidateIndices_pairwise _ _)
    (by simp) (by simp) i]
  simp only [List.not_mem_nil, false_or, mem_candidateIndices]
  tauto

/-- The value conditions of the onset test, spelt out with the real
threshold `mean + 0.3·√variance` of the source. -/
lemma onsetValB_iff (rms : List ℚ) (m v : ℚ) (hv : 0 ≤ v) (i : ℤ) :
    (onsetValB rms m v i = true ↔
      ∃ x p s, valueAt rms i = some x ∧ valueAt rms (i - 1) = some p ∧
        valueAt rms (i + 1) = some s ∧
        ((m : ℝ) + 3/10 * Real.sqrt (v : ℝ) < (x : ℝ)) ∧
        p < x ∧ s < x) := by
  constructor
  · intro h
    rw [onsetValB] at h
    rcases h1 : valueAt rms i with _ | x <;>
      rcases h2 : valueAt rms (i - 1) with _ | p <;>
        rcases h3 : valueAt rms (i + 1) with _ | s <;>
          rw [h1, h2, h3] at h <;>
            simp only [Bool.and_eq_true, decide_eq_true_eq,
              Bool.false_eq_true] at h
    obtain ⟨⟨hA, hB⟩, hC⟩ := h
    exact ⟨x, p, s, rfl, rfl, rfl,
      (exceedsThreshold_iff_real x m v hv).mp hA, hB, hC⟩
  · rintro ⟨x, p, s, h1, h2, h3, hth, hp, hs⟩
    rw [onsetValB, h1, h2, h3]
    simp only [Bool.and_eq_true, decide_eq_true_eq]
    exact ⟨⟨(exceedsThreshold_iff_real x m v hv).mpr hth, hp⟩, hs⟩

/-- Claim C7 (amended): frame `i` is detected as an onset iff
`minSpacing ≤ i`, `i < length − 1`, the frame value exceeds the
threshold `mean(RMS) + 0.3·stdDev(RMS)` and is a strict local peak,
and `i` is **strictly more** than `minSpacing = ⌊0.2·frameRate⌋`
frames after every previous onset — a gap of exactly `minSpacing`
frames is rejected, not accepted. -/
theorem onset_detection_rule (rms : List ℚ) (sr : ℚ) (i : ℤ) :
    i ∈ detectOnsets rms sr ↔
      (minSpacingOf sr ≤ i ∧ i < (rms.length : ℤ) - 1 ∧
       (∃ x p s, valueAt rms i = some x ∧ valueAt rms (i - 1) = some p ∧
          valueAt rms (i + 1) = some s ∧
          ((meanQ rms : ℝ) + 3/10 * Real.sqrt ((varianceQ rms : ℝ))
            < (x : ℝ)) ∧ p < x ∧ s < x) ∧
       ∀ j ∈ detectOnsets rms sr, j < i →
         minSpacingOf sr < i - j) := by
  rw [detectOnsets_mem_iff rms sr i,
    onsetValB_iff rms _ _ (varianceQ_nonneg rms) i]

/-- One interval per consecutive onset pair. -/
lemma intervalsOf_length (l : List ℤ) :
    (intervalsOf l).length = l.length - 1 := by
  rw [intervalsOf, List.length_zipWith]
  cases l <;> simp

/-- Strictly increasing onsets give intervals of at least one frame. -/
lemma intervalsOf_pos : ∀ (l : List ℤ), l.Pairwise (· < ·) →
    ∀ d ∈ intervalsOf l, 1 ≤ d := by
  intro l
  induction l with
  | nil => intro _ d hd; simp [intervalsOf] at hd
  | cons a t ih =>
      intro hp d hd
      cases t with
      | nil => simp [intervalsOf] at hd
      | cons b t2 =>
          rw [intervalsOf] at hd
          simp only [List.tail_cons, List.zipWith_cons_cons] at hd
          rcases List.mem_cons.mp hd with rfl | h2
          · have hab : a < b := List.rel_of_pairwise_cons hp (by simp)
            omega
          · apply ih hp.of_cons
            rw [intervalsOf]
            simpa using h2

/-- The median slot `sorted[⌊length/2⌋]` of a non-empty list is one of
its elements. -/
lemma median_mem (l : List ℤ) (hl : l ≠ []) :
    (l.insertionSort (· ≤ ·)).getD (l.length / 2) 0 ∈ l := by
  have hlen : (l.insertionSort (· ≤ ·)).length = l.length :=
    List.length_insertionSort _ l
  have hpos : 0 < l.length := List.length_pos.mpr hl
  have hidx : l.length / 2 < (l.insertionSort (· ≤ ·)).length := by
    rw [hlen]
    omega
  rw [List.getD_eq_getElem _ _ hidx]
  exact (List.perm_insertionSort _ l).subset (List.getElem_mem hidx)

/-- Claim C6 (amended): with fewer than two onsets `estimateTempo`
returns exactly 120; otherwise it takes `med`, the element at index
`⌊count/2⌋` of the ascending inter-onset intervals — the upper middle
element for an even count, not the mean of the two middle values —
converts it to `BPM = 60·(sampleRate/512)/med`, octave-corrects by
halving above 180 and doubling below 80 into an octave shift `r` of
that BPM lying in `[80, 180]`, and returns `max 60 (min 200 (round r))`
(rounding and the `[60, 200]` clamp, which is vacuous after
correction). -/
theorem tempo_estimation_algorithm (rms : List ℚ) (sr : ℚ)
    (hsr : 0 < sr) :
    ((detectOnsets rms sr).length < 2 → estimateTempo rms sr = 120) ∧
    (2 ≤ (detectOnsets rms sr).length →
      ∃ (med : ℤ) (r : ℚ) (k : ℤ),
        med = ((intervalsOf (detectOnsets rms sr)).insertionSort
            (· ≤ ·)).getD ((intervalsOf (detectOnsets rms sr)).length / 2)
            0 ∧
        med ∈ intervalsOf (detectOnsets rms sr) ∧ 0 < med ∧
        r = 60 * (sr / 512) / (med : ℚ) * 2 ^ k ∧
        80 ≤ r ∧ r ≤ 180 ∧
        estimateTempo rms sr = max 60 (min 200 (jsRound r))) := by
  constructor
  · intro h
    rw [estimateTempo, if_pos h]
  · intro h
    have hnil : intervalsOf (detectOnsets rms sr) ≠ [] := by
      have hL := intervalsOf_length (detectOnsets rms sr)
      intro hcon
      rw [hcon] at hL
      simp at hL
      omega
    have hmem := median_mem (intervalsOf (detectOnsets rms sr)) hnil
    have hmpos : (1 : ℤ) ≤ ((intervalsOf (detectOnsets rms sr)).insertionSort
        (· ≤ ·)).getD ((intervalsOf (detectOnsets rms sr)).length / 2) 0 :=
      intervalsOf_pos _ (detectOnsets_pairwise rms sr) _ hmem
    have htpos : 0 < 60 * (sr / 512) /
        ((((intervalsOf (detectOnsets rms sr)).insertionSort
          (· ≤ ·)).getD ((intervalsOf (detectOnsets rms sr)).length / 2) 0
            : ℤ) : ℚ) := by
      apply div_pos
      · have : 0 < sr / 512 := div_pos hsr (by norm_num)
        linarith
      · exact_mod_cast hmpos
    obtain ⟨k, hk, h80, h180⟩ := octaveCorrect_spec _ htpos
    refine ⟨_, octaveCorrect (60 * (sr / 512) /
      ((((intervalsOf (detectOnsets rms sr)).insertionSort
        (· ≤ ·)).getD ((intervalsOf (detectOnsets rms sr)).length / 2) 0
          : ℤ) : ℚ)), k, rfl, hmem, by omega, hk, h80, h180, ?_⟩
    rw [estimateTempo, if_neg (by omega)]

/-- `estimateTempo` as claim C6 words it: identical except that the
median of an even number of intervals is the mean of the two middle
values.  Used only to compare against the code's `estimateTempo`. -/
def estimateTempoSpec (rms : List ℚ) (sr : ℚ) : ℤ :=
  let onsets := detectOnsets rms sr
  if onsets.length < 2 then 120
  else
    let intervals := intervalsOf onsets
    let sorted := intervals.insertionSort (· ≤ ·)
    let medianInterval : ℚ :=
      if intervals.length % 2 = 0 then
        (((sorted.getD (intervals.length / 2 - 1) 0 : ℤ) : ℚ) +
          ((sorted.getD (intervals.length / 2) 0 : ℤ) : ℚ)) / 2
      else ((sorted.getD (intervals.length / 2) 0 : ℤ) : ℚ)
    let frameRate := sr / 512
    let tempo := 60 * frameRate / medianInterval
    max 60 (min 200 (jsRound (octaveCorrect tempo)))

/-- RMS series with onsets at frames 2, 5 and 9 at sample rate 5120
(frame rate 10, minimum spacing 2): inter-onset intervals 3 and 4. -/
def cRms6 : List ℚ := [0, 0, 1, 0, 0, 1, 0, 0, 0, 1, 0]

/-- RMS series with peaks at frames 2 and 4 at sample rate 5120:
the second peak is exactly `minSpacing = 2` frames after the first. -/
def cRms7 : List ℚ := [0, 0, 1, 0, 1, 0]

lemma minSpacing_5120 : minSpacingOf 5120 = 2 := by
  rw [minSpacingOf, show (5120 : ℚ) / 512 / 5 = ((2 : ℤ) : ℚ) by norm_num,
    Int.floor_intCast]

lemma cand6 : candidateIndices 2 11 = [2, 3, 4, 5, 6, 7, 8, 9] := by
  rw [candidateIndices]
  decide

lemma cand7 : candidateIndices 2 6 = [2, 3, 4] := by
  rw [candidateIndices]
  decide

lemma mean6 : meanQ cRms6 = 3/11 := by
  rw [meanQ, if_neg (by simp [cRms6])]
  norm_num [cRms6]

lemma var6 : varianceQ cRms6 = 24/121 := by
  rw [varianceQ, if_neg (by simp [cRms6]), mean6]
  norm_num [cRms6]

lemma mean7 : meanQ cRms7 = 1/3 := by
  rw [meanQ, if_neg (by simp [cRms7])]
  norm_num [cRms7]

lemma var7 : varianceQ cRms7 = 2/9 := by
  rw [varianceQ, if_neg (by simp [cRms7]), mean7]
  norm_num [cRms7]

lemma onsets6 : detectOnsets cRms6 5120 = [2, 5, 9] := by
  have hlen : cRms6.length = 11 := by simp [cRms6]
  have c2 : onsetCond cRms6 (3/11) (24/121) 2 [] 2 = true := by
    norm_num [onsetCond, onsetValB, onsetGapB, valueAt,
      exceedsThreshold, cRms6, show Int.toNat 1 = 1 from rfl,
      show Int.toNat 2 = 2 from rfl, show Int.toNat 3 = 3 from rfl,
      show Int.toNat 4 = 4 from rfl, show Int.toNat 5 = 5 from rfl,
      show Int.toNat 6 = 6 from rfl, show Int.toNat 7 = 7 from rfl,
      show Int.toNat 8 = 8 from rfl, show Int.toNat 9 = 9 from rfl,
      show Int.toNat 10 = 10 from rfl]
  have c3 : onsetCond cRms6 (3/11) (24/121) 2 [2] 3 = false := by
    norm_num [onsetCond, onsetValB, onsetGapB, valueAt,
      exceedsThreshold, cRms6, show Int.toNat 1 = 1 from rfl,
      show Int.toNat 2 = 2 from rfl, show Int.toNat 3 = 3 from rfl,
      show Int.toNat 4 = 4 from rfl, show Int.toNat 5 = 5 from rfl,
      show Int.toNat 6 = 6 from rfl, show Int.toNat 7 = 7 from rfl,
      show Int.toNat 8 = 8 from rfl, show Int.toNat 9 = 9 from rfl,
      show Int.toNat 10 = 10 from rfl]
  have c4 : onsetCond cRms6 (3/11) (24/121) 2 [2] 4 = false := by
    norm_num [onsetCond, onsetValB, onsetGapB, valueAt,
      exceedsThreshold, cRms6, show Int.toNat 1 = 1 from rfl,
      show Int.toNat 2 = 2 from rfl, show Int.toNat 3 = 3 from rfl,
      show Int.toNat 4 = 4 from rfl, show Int.toNat 5 = 5 from rfl,
      show Int.toNat 6 = 6 from rfl, show Int.toNat 7 = 7 from rfl,
      show Int.toNat 8 = 8 from rfl, show Int.toNat 9 = 9 from rfl,
      show Int.toNat 10 = 10 from rfl]
  have c5 : onsetCond cRms6 (3/11) (24/121) 2 [2] 5 = true := by
    norm_num [onsetCond, onsetValB, onsetGapB, valueAt,
      exceedsThreshold, cRms6, show Int.toNat 1 = 1 from rfl,
      show Int.toNat 2 = 2 from rfl, show Int.toNat 3 = 3 from rfl,
      show Int.toNat 4 = 4 from rfl, show Int.toNat 5 = 5 from rfl,
      show Int.toNat 6 = 6 from rfl, show Int.toNat 7 = 7 from rfl,
      show Int.toNat 8 = 8 from rfl, show Int.toNat 9 = 9 from rfl,
      show Int.toNat 10 = 10 from rfl]
  have c6 : onsetCond cRms6 (3/11) (24/121) 2 [2, 5] 6 = false := by
    norm_num [onsetCond, onsetValB, onsetGapB, valueAt,
      exceedsThreshold, cRms6, show Int.toNat 1 = 1 from rfl,
      show Int.toNat 2 = 2 from rfl, show Int.toNat 3 = 3 from rfl,
      show Int.toNat 4 = 4 from rfl, show Int.toNat 5 = 5 from rfl,
      show Int.toNat 6 = 6 from rfl, show Int.toNat 7 = 7 from rfl,
      show Int.toNat 8 = 8 from rfl, show Int.toNat 9 = 9 from rfl,
      show Int.toNat 10 = 10 from rfl]
  have c7 : onsetCond cRms6 (3/11) (24/121) 2 [2, 5] 7 = false := by
    norm_num [onsetCond, onsetValB, onsetGapB, valueAt,
      exceedsThreshold, cRms6, show Int.toNat 1 = 1 from rfl,
      show Int.toNat 2 = 2 from rfl, show Int.toNat 3 = 3 from rfl,
      show Int.toNat 4 = 4 from rfl, show Int.toNat 5 = 5 from rfl,
      show Int.toNat 6 = 6 from rfl, show Int.toNat 7 = 7 from rfl,
      show Int.toNat 8 = 8 from rfl, show Int.toNat 9 = 9 from rfl,
      show Int.toNat 10 = 10 from rfl]
  have c8 : onsetCond cRms6 (3/11) (24/121) 2 [2, 5] 8 = false := by
    norm_num [onsetCond, onsetValB, onsetGapB, valueAt,
      exceedsThreshold, cRms6, show Int.toNat 1 = 1 from rfl,
      show Int.toNat 2 = 2 from rfl, show Int.toNat 3 = 3 from rfl,
      show Int.toNat 4 = 4 from rfl, show Int.toNat 5 = 5 from rfl,
      show Int.toNat 6 = 6 from rfl, show Int.toNat 7 = 7 from rfl,
      show Int.toNat 8 = 8 from rfl, show Int.toNat 9 = 9 from rfl,
      show Int.toNat 10 = 10 from rfl]
  have c9 : onsetCond cRms6 (3/11) (24/121) 2 [2, 5] 9 = true := by
    norm_num [onsetCond, onsetValB, onsetGapB, valueAt,
      exceedsThreshold, cRms6, show Int.toNat 1 = 1 from rfl,
      show Int.toNat 2 = 2 from rfl, show Int.toNat 3 = 3 from rfl,
      show Int.toNat 4 = 4 from rfl, show Int.toNat 5 = 5 from rfl,
      show Int.toNat 6 = 6 from rfl, show Int.toNat 7 = 7 from rfl,
      show Int.toNat 8 = 8 from rfl, show Int.toNat 9 = 9 from rfl,
      show Int.toNat 10 = 10 from rfl]
  rw [detectOnsets]
  simp only [hlen, mean6, var6, minSpacing_5120, cand6, onsetLoop,
    c2, c3, c4, c5, c6, c7, c8, c9, Bool.false_eq_true,
    eq_self_iff_true, if_true, if_false, ite_true, ite_false,
    List.nil_append, List.cons_append, List.append_nil]

lemma onsets7 : detectOnsets cRms7 5120 = [2] := by
  have hlen : cRms7.length = 6 := by simp [cRms7]
  have c2 : onsetCond cRms7 (1/3) (2/9) 2 [] 2 = true := by
    norm_num [onsetCond, onsetValB, onsetGapB, valueAt,
      exceedsThreshold, cRms7, show Int.toNat 1 = 1 from rfl,
      show Int.toNat 2 = 2 from rfl, show Int.toNat 3 = 3 from rfl,
      show Int.toNat 4 = 4 from rfl, show Int.toNat 5 = 5 from rfl]
  have c3 : onsetCond cRms7 (1/3) (2/9) 2 [2] 3 = false := by
    norm_num [onsetCond, onsetValB, onsetGapB, valueAt,
      exceedsThreshold, cRms7, show Int.toNat 1 = 1 from rfl,
      show Int.toNat 2 = 2 from rfl, show Int.toNat 3 = 3 from rfl,
      show Int.toNat 4 = 4 from rfl, show Int.toNat 5 = 5 from rfl]
  have c4 : onsetCond cRms7 (1/3) (2/9) 2 [2] 4 = false := by
    norm_num [onsetCond, onsetValB, onsetGapB, valueAt,
      exceedsThreshold, cRms7, show Int.toNat 1 = 1 from rfl,
      show Int.toNat 2 = 2 from rfl, show Int.toNat 3 = 3 from rfl,
      show Int.toNat 4 = 4 from rfl, show Int.toNat 5 = 5 from rfl]
  rw [detectOnsets]
  simp only [hlen, mean7, var7, minSpacing_5120, cand7, onsetLoop,
    c2, c3, c4, Bool.false_eq_true, eq_self_iff_true, if_true,
    if_false, ite_true, ite_false, List.nil_append, List.cons_append,
    List.append_nil]

lemma tempo6 : estimateTempo cRms6 5120 = 150 := by
  have hintervals : intervalsOf [2, 5, 9] = [3, 4] := by decide
  have hsorted : (([3, 4] : List ℤ).insertionSort (· ≤ ·)) = [3, 4] := by
    decide
  have hoct : octaveCorrect 150 = 150 := by
    rw [octaveCorrect, halveLoop_stay _ _ (by norm_num),
      doubleLoop_stay _ _ (by norm_num)]
  have hj : jsRound (150 : ℚ) = 150 := jsRound_eq (by norm_num) (by norm_num)
  rw [estimateTempo]
  simp only [onsets6, hintervals, hsorted]
  norm_num [hoct, hj, show ([3, 4] : List ℤ).getD 1 0 = 4 from rfl]

lemma tempoSpec6 : estimateTempoSpec cRms6 5120 = 171 := by
  have hintervals : intervalsOf [2, 5, 9] = [3, 4] := by decide
  have hsorted : (([3, 4] : List ℤ).insertionSort (· ≤ ·)) = [3, 4] := by
    decide
  have hoct : octaveCorrect (1200/7 : ℚ) = 1200/7 := by
    rw [octaveCorrect, halveLoop_stay _ _ (by norm_num),
      doubleLoop_stay _ _ (by norm_num)]
  have hj : jsRound (1200/7 : ℚ) = 171 := jsRound_eq (by norm_num)
    (by norm_num)
  rw [estimateTempoSpec]
  simp only [onsets6, hintervals, hsorted]
  norm_num [hoct, hj, show ([3, 4] : List ℤ).getD 0 0 = 3 from rfl,
    show ([3, 4] : List ℤ).getD 1 0 = 4 from rfl]

/-- Claim C6, counterexample to the claim as stated: on `cRms6`
(onsets 2, 5, 9; sorted intervals [3, 4]) the code's median is the
upper middle element 4, giving 150 BPM, while the claim's
mean-of-two-middles median 3.5 would give round(1200/7) = 171 BPM. -/
theorem tempo_estimation_algorithm_cx :
    estimateTempo cRms6 5120 = 150 ∧
    estimateTempoSpec cRms6 5120 = 171 ∧ (150 : ℤ) ≠ 171 :=
  ⟨tempo6, tempoSpec6, by decide⟩

/-- Witness for `tempo_estimation_algorithm` at `cRms6`. -/
theorem tempo_estimation_algorithm_witness :
    2 ≤ (detectOnsets cRms6 5120).length ∧
    (∃ (med : ℤ) (r : ℚ) (k : ℤ),
      med = ((intervalsOf (detectOnsets cRms6 5120)).insertionSort
          (· ≤ ·)).getD
          ((intervalsOf (detectOnsets cRms6 5120)).length / 2) 0 ∧
      med ∈ intervalsOf (detectOnsets cRms6 5120) ∧ 0 < med ∧
      r = 60 * ((5120 : ℚ) / 512) / (med : ℚ) * 2 ^ k ∧
      80 ≤ r ∧ r ≤ 180 ∧
      estimateTempo cRms6 5120 = max 60 (min 200 (jsRound r))) :=
  ⟨by rw [onsets6]; decide,
   (tempo_estimation_algorithm cRms6 5120 (by norm_num)).2
     (by rw [onsets6]; decide)⟩

/-- Claim C7, counterexample to the claim as stated: in `cRms7` frame
4 satisfies every onset condition and sits exactly
`minSpacing = 2` frames after the previous onset 2 — the claim says a
gap of exactly `minSpacing` is accepted — yet the code rejects it and
detects only `[2]`. -/
theorem onset_detection_rule_cx :
    detectOnsets cRms7 5120 = [2] ∧
    minSpacingOf 5120 = 2 ∧
    ((2 : ℤ) ≤ 4 ∧ (4 : ℤ) < (cRms7.length : ℤ) - 1) ∧
    onsetValB cRms7 (meanQ cRms7) (varianceQ cRms7) 4 = true ∧
    (4 : ℤ) - 2 = minSpacingOf 5120 := by
  refine ⟨onsets7, minSpacing_5120, ⟨by norm_num, by norm_num [cRms7]⟩,
    ?_, by rw [minSpacing_5120]; decide⟩
  rw [mean7, var7]
  norm_num [onsetValB, valueAt, exceedsThreshold, cRms7,
    show Int.toNat 3 = 3 from rfl, show Int.toNat 4 = 4 from rfl,
    show Int.toNat 5 = 5 from rfl]

/-- Witness for `onset_detection_rule`: the characterisation holds at
the detected onset 2 of `cRms7`. -/
theorem onset_detection_rule_witness :
    minSpacingOf 5120 ≤ 2 ∧ (2 : ℤ) < (cRms7.length : ℤ) - 1 ∧
    (∃ x p s, valueAt cRms7 2 = some x ∧ valueAt cRms7 (2 - 1) = some p ∧
      valueAt cRms7 (2 + 1) = some s ∧
      ((meanQ cRms7 : ℝ) + 3/10 * Real.sqrt ((varianceQ cRms7 : ℝ))
        < (x : ℝ)) ∧ p < x ∧ s < x) ∧
    (∀ j ∈ detectOnsets cRms7 5120, j < 2 → minSpacingOf 5120 < 2 - j) :=
  (onset_detection_rule cRms7 5120 2).mp (by rw [onsets7]; simp)

/-- Witness for `nonfinite_frame_policy`: the series of the empty
signal is non-empty. -/
theorem nonfinite_frame_policy_witness :
    extractFramedFeatureJS (fun _ => .nan) [] ≠ [] :=
  (nonfinite_frame_policy (fun _ => .nan) []).1

/-- Witness for `progress_event_stream` at a concrete call. -/
theorem progress_event_stream_witness :
    progressPercents (workerOnMessage id envNone [] 44100 5)
      = [0, 14, 28, 42, 56, 64, 78, 88, 98] :=
  (progress_event_stream id envNone [] 44100 5).1

end SceneSync
